import Mathlib

/-!
Verification of the TG_WrokFolews_Bot deployment-approval bot.

This file shallowly embeds the parts of the Python source that the
checked properties talk about: the field-labelled submission-data
parser (src/sso/data_converter.py), the conversation-form formatter
and input validators (src/handlers/form_handler.py), the workflow
state machine and SQLite store operations (src/workflows/state_machine.py,
src/workflows/models.py), the approval callback gate and the SSO/Jenkins
orchestration of src/handlers/approval_handler.py, the two notifiers
(src/sso/notifier.py, src/jenkins_ops/notifier.py), the Jenkins build
limiter (src/jenkins_ops/client.py) and the Jenkins poll loop
(src/jenkins_ops/monitor.py).

Python strings are modelled as List Char; SQLite tables as lists of row
structures, with SELECT ... fetchone as List.find? and UPDATE as List.map.
-/

namespace TGBot

/-! ## Python string helpers -/

/-- Whitespace in the sense of the regex class backslash-s and of
Python str.strip (space, tab, newline, carriage return, form feed,
vertical tab). -/
def isWsChar (c : Char) : Bool :=
  c = ' ' || c = '\t' || c = '\n' || c = '\r' || c = '\x0b' || c = '\x0c'

/-- Python str.strip(): drop whitespace from both ends. -/
def trimChars (s : List Char) : List Char :=
  ((s.dropWhile isWsChar).reverse.dropWhile isWsChar).reverse

/-- sep.join(parts) for Python strings. -/
def joinSep (sep : List Char) : List (List Char) → List Char
  | [] => []
  | [x] => x
  | x :: xs => x ++ sep ++ joinSep sep xs

/-- Split on the characters selected by p (Python re.split on a
character class, or str.split on a single character). -/
def splitOnPred (p : Char → Bool) : List Char → List (List Char)
  | [] => [[]]
  | c :: cs =>
    if p c then [] :: splitOnPred p cs
    else
      match splitOnPred p cs with
      | [] => [[c]]
      | t :: ts => (c :: t) :: ts

/-! ## The field-labelled parser (src/sso/data_converter.py,
SSODataConverter.parse_tg_submission_data) -/

/-- Does lab occur at the head of s immediately followed by a full-width
or ASCII colon?  This is the head test of the regex LABEL + colon class. -/
def labelMatchAt (lab : List Char) (s : List Char) : Bool :=
  lab.isPrefixOf s &&
    (match s.drop lab.length with
     | d :: _ => d = ':' || d = '：'
     | [] => false)

/-- Does lab followed by a colon occur anywhere in s? -/
def hasMatch (lab : List Char) : List Char → Bool
  | [] => false
  | c :: cs => labelMatchAt lab (c :: cs) || hasMatch lab cs

/-- The character class of everything but a newline. -/
def notNl (c : Char) : Bool := !(c = '\n')

/-- The capture of the regex tail after the colon: skip whitespace
greedily, then capture the maximal run of non-newline characters;
an empty capture is no match.  This is the common behaviour of the
two capture shapes used in the source patterns. -/
def captureAfter (s : List Char) : Option (List Char) :=
  let rest := s.dropWhile isWsChar
  let cap := rest.takeWhile notNl
  if cap = [] then none else some cap

/-- re.search of the pattern LABEL colon-class whitespace capture:
the first occurrence of label-plus-colon wins, and the capture is read
right after it. -/
def findLabel (lab : List Char) : List Char → Option (List Char)
  | [] => none
  | c :: cs =>
    if labelMatchAt lab (c :: cs) then captureAfter ((c :: cs).drop (lab.length + 1))
    else findLabel lab cs

def applyTimeLabel : List Char := "申请时间".toList
def projectLabel : List Char := "申请项目".toList
def envLabel : List Char := "申请环境".toList
def servicesLabel : List Char := "申请部署服务".toList
def hashLabel : List Char := "申请发版hash".toList
def branchLabel : List Char := "申请发版分支".toList
def contentLabel : List Char := "申请发版服务内容".toList

/-- The default branch the parser falls back to. -/
def defaultBranchFallback : List Char := "uat-ebpay".toList

/-- Replace full-width comma and ideographic comma by an ASCII comma,
as the source does before splitting services and hashes. -/
def normalizeSeps (s : List Char) : List Char :=
  s.map (fun c => if c = '，' || c = '、' then ',' else c)

/-- Strip every piece and keep the non-empty ones (the source's
list comprehension with an if guard). -/
def cleanPieces (l : List (List Char)) : List (List Char) :=
  (l.map trimChars).filter (fun p => p ≠ [])

/-- The services field: normalise separators, split on commas,
strip, drop empties. -/
def parseServicesField (v : List Char) : List (List Char) :=
  cleanPieces (splitOnPred (fun c => c = ',') (normalizeSeps v))

/-- The hash field: normalise separators, split on commas and
newlines, strip, drop empties. -/
def parseHashField (v : List Char) : List (List Char) :=
  cleanPieces (splitOnPred (fun c => c = ',' || c = '\n') (normalizeSeps v))

/-- The parser's structured result.  These are exactly the keys built
by parse_tg_submission_data: there is no addresses key. -/
structure TgParseResult where
  applyTime : Option (List Char)
  project : Option (List Char)
  environment : Option (List Char)
  services : List (List Char)
  hashes : List (List Char)
  branch : List Char
  content : Option (List Char)
deriving DecidableEq

/-- SSODataConverter.parse_tg_submission_data: run each labelled pattern
over the submission string; captures are stripped; services and hashes
are split lists; branch falls back to uat-ebpay. -/
def parseTgSubmissionData (s : List Char) : TgParseResult :=
  { applyTime := (findLabel applyTimeLabel s).map trimChars
    project := (findLabel projectLabel s).map trimChars
    environment := (findLabel envLabel s).map trimChars
    services :=
      match (findLabel servicesLabel s).map trimChars with
      | some v => parseServicesField v
      | none => []
    hashes :=
      match (findLabel hashLabel s).map trimChars with
      | some v => parseHashField v
      | none => []
    branch :=
      match (findLabel branchLabel s).map trimChars with
      | some v => if v = [] then defaultBranchFallback else v
      | none => defaultBranchFallback
    content := (findLabel contentLabel s).map trimChars }

/-! ## The conversation form (src/handlers/form_handler.py) -/

/-- The form data gathered by the conversation engine (the form_data
dict of FormHandler init). -/
structure FormData where
  applyTime : List Char
  project : List Char
  environment : List Char
  services : List (List Char)
  address : List (List Char)
  hashVal : List Char
  branch : List Char
  content : List Char
deriving DecidableEq

/-- One emitted field line with its trailing newline:
label colon space value newline. -/
def dLine (lab v : List Char) : List Char :=
  lab ++ ':' :: ' ' :: v ++ ['\n']

/-- The last emitted line carries no trailing newline. -/
def dLineLast (lab v : List Char) : List Char :=
  lab ++ ':' :: ' ' :: v

def linkAddrLabel : List Char := "申请链路地址".toList
def newAddrLabel : List Char := "申请新增地址".toList

/-- services_text of _format_submission_data. -/
def servicesText (fd : FormData) : List Char :=
  joinSep (", ".toList) fd.services

/-- address_text of _format_submission_data: newline-joined address
lines, or the placeholder when the list is empty. -/
def addressText (fd : FormData) : List Char :=
  if fd.address = [] then "无".toList else joinSep ['\n'] fd.address

/-- hash_val of _format_submission_data (dash placeholder when unset). -/
def hashText (fd : FormData) : List Char :=
  if fd.hashVal = [] then "-".toList else fd.hashVal

/-- content_val of _format_submission_data (dash placeholder when unset). -/
def contentText (fd : FormData) : List Char :=
  if fd.content = [] then "-".toList else fd.content

/-- branch_text of _format_submission_data; when the stored branch is
empty the source asks the configuration for the default branch, which
is passed here as defaultBranchCfg. -/
def branchText (defaultBranchCfg : List Char) (fd : FormData) : List Char :=
  if fd.branch = [] then defaultBranchCfg else fd.branch

/-- Growing prefixes of the default-format string, one per emitted line.
Factoring the format this way lets the theorems name the part of the
string that precedes each label. -/
def dPreProject (fd : FormData) : List Char :=
  dLine applyTimeLabel fd.applyTime

def dPreEnv (fd : FormData) : List Char :=
  dPreProject fd ++ dLine projectLabel fd.project

def dPreBranch (fd : FormData) : List Char :=
  dPreEnv fd ++ dLine envLabel fd.environment

def dPreServices (cfg : List Char) (fd : FormData) : List Char :=
  dPreBranch fd ++ dLine branchLabel (branchText cfg fd)

def dPreLinkAddr (cfg : List Char) (fd : FormData) : List Char :=
  dPreServices cfg fd ++ dLine servicesLabel (servicesText fd)

def dPreHash (cfg : List Char) (fd : FormData) : List Char :=
  dPreLinkAddr cfg fd ++ dLine linkAddrLabel (addressText fd)

def dPreContent (cfg : List Char) (fd : FormData) : List Char :=
  dPreHash cfg fd ++ dLine hashLabel (hashText fd)

/-- FormHandler._format_submission_data, default (non-address-only)
branch: the eight labelled lines in source order, newline separated. -/
def formatSubmissionDataDefault (cfg : List Char) (fd : FormData) : List Char :=
  dPreContent cfg fd ++ dLineLast contentLabel (contentText fd)

/-- FormHandler._format_submission_data, address-only branch: time,
project and environment lines, then the address label with a bare colon,
a newline, and the newline-joined address lines. -/
def formatSubmissionDataAddressOnly (fd : FormData) : List Char :=
  dPreBranch fd ++ newAddrLabel ++ ':' :: '\n' :: addressText fd

/-- FormHandler._format_submission_data: the address-only branch is
selected by the project's address_only configuration flag. -/
def formatSubmissionData (addressOnly : Bool) (cfg : List Char) (fd : FormData) : List Char :=
  if addressOnly then formatSubmissionDataAddressOnly fd
  else formatSubmissionDataDefault cfg fd

/-- Comma characters the hash input step refuses. -/
def containsSepChar (s : List Char) : Bool :=
  s.any (fun c => c = ',' || c = '，' || c = '、')

/-- FormHandler.handle_hash_input: strip the message text; refuse an
empty result or one containing an ASCII comma, a full-width comma or an
ideographic comma; otherwise store the stripped value.  none models the
correction prompt that keeps the conversation in the same state. -/
def handleHashInput (text : List Char) : Option (List Char) :=
  let h := trimChars text
  if h = [] then none
  else if containsSepChar h then none
  else some h

/-- FormHandler.handle_branch_input, custom-text branch: strip and
refuse only the empty result. -/
def handleBranchInput (text : List Char) : Option (List Char) :=
  let b := trimChars text
  if b = [] then none else some b

/-! ## The workflow store and state machine
(src/workflows/models.py, src/workflows/state_machine.py) -/

/-- The status column values (config/constants.py STATUS_PENDING,
STATUS_APPROVED, STATUS_REJECTED). -/
inductive WStatus
  | pending
  | approved
  | rejected
deriving DecidableEq

/-- A row of the workflows table, restricted to the columns the checked
properties read: the primary key, the status and the approver columns. -/
structure WorkflowRow where
  workflowId : String
  status : WStatus
  approverId : Option Int
  approverUsername : Option String
  approvalTime : Option String
  approvalComment : Option String
deriving DecidableEq

/-- The workflows table. -/
abbrev WStore := List WorkflowRow

/-- WorkflowManager.get_workflow: SELECT by primary key, fetchone. -/
def getWorkflow (s : WStore) (id : String) : Option WorkflowRow :=
  s.find? (fun r => r.workflowId = id)

/-- The kwargs of an update_workflow call, restricted to the allow-listed
columns used by the state machine; a none field is simply not in kwargs
and therefore not written. -/
structure WorkflowUpdate where
  status : Option WStatus
  approverId : Option Int
  approverUsername : Option String
  approvalTime : Option String
  approvalComment : Option String
deriving DecidableEq

/-- SET clause application of one update to one row.  workflow_id is not
among the allow-listed columns, so the key never changes. -/
def applyWorkflowUpdate (r : WorkflowRow) (u : WorkflowUpdate) : WorkflowRow :=
  { r with
    status := u.status.getD r.status
    approverId := match u.approverId with | some v => some v | none => r.approverId
    approverUsername := match u.approverUsername with | some v => some v | none => r.approverUsername
    approvalTime := match u.approvalTime with | some v => some v | none => r.approvalTime
    approvalComment := match u.approvalComment with | some v => some v | none => r.approvalComment }

/-- WorkflowManager.update_workflow: UPDATE workflows SET ... WHERE
workflow_id = id; the commit succeeds and True is returned even when no
row matched. -/
def updateWorkflow (s : WStore) (id : String) (u : WorkflowUpdate) : WStore × Bool :=
  (s.map (fun r => if r.workflowId = id then applyWorkflowUpdate r u else r), true)

/-- WorkflowStateMachine.approve_workflow: read the row; missing or
non-pending rows are refused with False; otherwise write status approved
with the approver columns and return True. -/
def approveWorkflow (s : WStore) (id : String) (approverId : Int)
    (approverUsername : String) (now : String) (comment : Option String) :
    WStore × Bool :=
  match getWorkflow s id with
  | none => (s, false)
  | some w =>
    if w.status ≠ WStatus.pending then (s, false)
    else
      ((updateWorkflow s id
        { status := some WStatus.approved
          approverId := some approverId
          approverUsername := some approverUsername
          approvalTime := some now
          approvalComment := some (comment.getD "已通过") }).1, true)

/-- WorkflowStateMachine.reject_workflow, symmetric to approve. -/
def rejectWorkflow (s : WStore) (id : String) (approverId : Int)
    (approverUsername : String) (now : String) (comment : Option String) :
    WStore × Bool :=
  match getWorkflow s id with
  | none => (s, false)
  | some w =>
    if w.status ≠ WStatus.pending then (s, false)
    else
      ((updateWorkflow s id
        { status := some WStatus.rejected
          approverId := some approverId
          approverUsername := some approverUsername
          approvalTime := some now
          approvalComment := some (comment.getD "已拒绝") }).1, true)

/-- One state-machine call, for reasoning about call sequences. -/
inductive SMOp
  | approve (id : String) (approverId : Int) (approverUsername : String)
      (now : String) (comment : Option String)
  | reject (id : String) (approverId : Int) (approverUsername : String)
      (now : String) (comment : Option String)

/-- Apply one state-machine call to the store. -/
def applySMOp (s : WStore) : SMOp → WStore
  | SMOp.approve id aid auser now c => (approveWorkflow s id aid auser now c).1
  | SMOp.reject id aid auser now c => (rejectWorkflow s id aid auser now c).1

/-- Apply a sequence of state-machine calls. -/
def applySMOps (s : WStore) : List SMOp → WStore
  | [] => s
  | op :: ops => applySMOps (applySMOp s op) ops

/-! ## The approval callback gate
(src/handlers/approval_handler.py, ApprovalHandler.handle_approval_callback) -/

/-- Python str.lower restricted to the ASCII range, applied characterwise. -/
def lowerStr (s : String) : String :=
  String.mk (s.toList.map Char.toLower)

/-- configured_username.lstrip of the at sign: drop every leading at. -/
def lstripAt (s : String) : String :=
  String.mk (s.toList.dropWhile (fun c => c = '@'))

/-- Decimal digits to a number; any non-digit refuses the whole string,
as int() raises ValueError. -/
def digitsToNatAux (acc : Nat) : List Char → Option Nat
  | [] => some acc
  | c :: cs =>
    if c.isDigit then digitsToNatAux (acc * 10 + (c.toNat - 48)) cs else none

/-- Parse a non-empty all-digit run. -/
def digitsToNat : List Char → Option Nat
  | [] => none
  | l => digitsToNatAux 0 l

/-- Python int() on a plain decimal string with an optional leading
minus sign; none models the ValueError. -/
def pyIntParse (s : String) : Option Int :=
  match s.toList with
  | '-' :: rest => (digitsToNat rest).map (fun n => -(n : Int))
  | l => (digitsToNat l).map (fun n => (n : Int))

/-- int(approver_user_id_str) with the empty string and a ValueError
both collapsing to zero, as in the handler. -/
def parseApproverId (s : String) : Int :=
  if s = "" then 0 else ((pyIntParse s).getD 0)

/-- is_restricted: an approver restriction is configured when the
parsed user id is non-zero or the username string is non-empty. -/
def isRestricted (usernameCfg : String) (idCfg : Int) : Bool :=
  idCfg ≠ 0 || usernameCfg ≠ ""

/-- The permission check of the approve branch: the username route
compares the clicker's username, lower-cased (missing username reads as
the empty string), against the configured name with leading at signs
stripped and lower-cased; the id route, tried only when the username
route did not grant, compares ids when a non-zero id is configured. -/
def hasApprovalPermission (usernameCfg : String) (idCfg : Int)
    (clickerUsername : Option String) (clickerId : Int) : Bool :=
  let byName :=
    usernameCfg ≠ "" &&
      lowerStr (clickerUsername.getD "") = lowerStr (lstripAt usernameCfg)
  let byId := idCfg ≠ 0 && clickerId = idCfg
  byName || byId

/-- data.split on the first colon: the action before it, the rest after. -/
def splitColon1 : List Char → Option (List Char × List Char)
  | [] => none
  | c :: cs =>
    if c = ':' then some ([], cs)
    else (splitColon1 cs).map (fun p => (c :: p.1, p.2))

/-- The observable outcome of one callback delivery. -/
inductive CallbackOutcome
  | invalidData
  | notAuthorized
  | workflowMissing
  | alreadyHandled
  | unknownAction
  | transitioned
deriving DecidableEq

/-- ApprovalHandler.handle_approval_callback together with the
_process_approval body it spawns, projected onto the workflows store:
parse the callback data; gate the approve action on the configured
approver (reject is open); then load the workflow, refuse missing or
non-pending ones, and run the state-machine transition.  The chat-side
effects (toasts, message edits, notifications) and the SSO and Jenkins
fan-out are modelled separately. -/
def handleApprovalCallback (usernameCfg idCfgStr : String)
    (clickerUsername : Option String) (clickerId : Int)
    (data : String) (now : String) (s : WStore) : WStore × CallbackOutcome :=
  match splitColon1 data.toList with
  | none => (s, CallbackOutcome.invalidData)
  | some (action, widChars) =>
    let wid := String.mk widChars
    let idCfg := parseApproverId idCfgStr
    if action = "approve".toList &&
        isRestricted usernameCfg idCfg &&
        !hasApprovalPermission usernameCfg idCfg clickerUsername clickerId then
      (s, CallbackOutcome.notAuthorized)
    else
      match getWorkflow s wid with
      | none => (s, CallbackOutcome.workflowMissing)
      | some w =>
        if w.status ≠ WStatus.pending then (s, CallbackOutcome.alreadyHandled)
        else if action = "approve".toList then
          ((approveWorkflow s wid clickerId (clickerUsername.getD "未知用户") now none).1,
            CallbackOutcome.transitioned)
        else if action = "reject".toList then
          ((rejectWorkflow s wid clickerId (clickerUsername.getD "未知用户") now none).1,
            CallbackOutcome.transitioned)
        else (s, CallbackOutcome.unknownAction)

/-! ## The sso_submissions table (src/workflows/models.py) -/

/-- A row of sso_submissions, restricted to the columns the checked
properties read. -/
structure SsoSubmissionRow where
  submissionId : String
  workflowId : String
  processInstanceId : Option String
  orderData : String
  submitStatus : String
  submitResponse : Option String
  errorMessage : Option String
deriving DecidableEq

/-- The sso_submissions table. -/
abbrev SsoStore := List SsoSubmissionRow

/-- WorkflowManager.create_sso_submission: submission_id is the workflow
id, the INSERT writes submit_status pending and whatever
process_instance_id was passed (the orchestration passes none); a
duplicate primary key makes the INSERT raise, returning none here. -/
def createSsoSubmission (s : SsoStore) (workflowId : String)
    (orderData : String) (pid : Option String) :
    SsoStore × Option SsoSubmissionRow :=
  if s.any (fun r => r.submissionId = workflowId) then (s, none)
  else
    let row : SsoSubmissionRow :=
      { submissionId := workflowId
        workflowId := workflowId
        processInstanceId := pid
        orderData := orderData
        submitStatus := "pending"
        submitResponse := none
        errorMessage := none }
    (s ++ [row], some row)

/-- WorkflowManager.update_sso_submission_status: UPDATE submit_status
always, submit_response and error_message only when provided.  The
column list is exactly the source's update_fields: process_instance_id
is not among them. -/
def updateSsoSubmissionStatus (s : SsoStore) (submissionId status : String)
    (response : Option String) (error : Option String) : SsoStore :=
  s.map (fun r =>
    if r.submissionId = submissionId then
      { r with
        submitStatus := status
        submitResponse := match response with | some v => some v | none => r.submitResponse
        errorMessage := match error with | some v => some v | none => r.errorMessage }
    else r)

/-- One sso_submissions store call, for reasoning about call sequences. -/
inductive SsoOp
  | create (workflowId : String) (orderData : String) (pid : Option String)
  | updateStatus (submissionId status : String)
      (response : Option String) (error : Option String)

/-- Apply one sso_submissions call. -/
def applySsoOp (s : SsoStore) : SsoOp → SsoStore
  | SsoOp.create wid od pid => (createSsoSubmission s wid od pid).1
  | SsoOp.updateStatus sid st resp err => updateSsoSubmissionStatus s sid st resp err

/-- Apply a sequence of sso_submissions calls. -/
def applySsoOps (s : SsoStore) : List SsoOp → SsoStore
  | [] => s
  | op :: ops => applySsoOps (applySsoOp s op) ops

/-- Does every create in the sequence pass a null process_instance_id,
as the orchestration's only call site does? -/
def createsPassNoPid (ops : List SsoOp) : Bool :=
  ops.all (fun op =>
    match op with
    | SsoOp.create _ _ pid => pid = none
    | SsoOp.updateStatus _ _ _ _ => true)

/-! ## Build rows and the pending-notification queries
(src/workflows/models.py) -/

/-- A row of sso_build_status, restricted to the columns the
notification query reads. -/
structure SsoBuildRow where
  buildId : String
  workflowId : String
  buildStatus : String
  notified : Nat
  buildEndTime : Option Int
deriving DecidableEq

/-- A row of jenkins_builds, restricted to the columns the checked
properties read. -/
structure JenkinsBuildRow where
  buildId : String
  workflowId : String
  jobName : String
  jobUrl : Option String
  buildNumber : Option Int
  buildStatus : String
  buildEndTime : Option Int
  buildDuration : Option Int
  notified : Nat
deriving DecidableEq

/-- SQLite ORDER BY column ASC over a nullable integer column:
NULL sorts before every value. -/
def optIntLe : Option Int → Option Int → Bool
  | none, _ => true
  | some _, none => false
  | some a, some b => a ≤ b

/-- Insertion into a le-sorted list. -/
def insertSorted (le : α → α → Bool) (x : α) : List α → List α
  | [] => [x]
  | y :: ys => if le x y then x :: y :: ys else y :: insertSorted le x ys

/-- Insertion sort, modelling the ORDER BY clause. -/
def sortByLe (le : α → α → Bool) (l : List α) : List α :=
  l.foldr (insertSorted le) []

/-- Adjacent sortedness under a boolean relation. -/
def sortedLe (le : α → α → Bool) : List α → Prop
  | [] => True
  | [_] => True
  | x :: y :: ys => le x y = true ∧ sortedLe le (y :: ys)

/-- The WHERE clause of get_pending_notifications: the literal status
list of the SQL text, and notified = 0. -/
def ssoNotifyFilter (r : SsoBuildRow) : Bool :=
  (r.buildStatus = "SUCCESS" || r.buildStatus = "FAILURE" || r.buildStatus = "ABORTED") &&
    r.notified = 0

/-- WorkflowManager.get_pending_notifications: filter, ORDER BY
build_end_time ASC, LIMIT. -/
def getPendingNotifications (rows : List SsoBuildRow) (limit : Nat) : List SsoBuildRow :=
  (sortByLe (fun a b => optIntLe a.buildEndTime b.buildEndTime)
    (rows.filter ssoNotifyFilter)).take limit

/-- The call with the default limit of 100. -/
def getPendingNotificationsDefault (rows : List SsoBuildRow) : List SsoBuildRow :=
  getPendingNotifications rows 100

/-- The WHERE clause of get_pending_jenkins_notifications: the literal
status list of the SQL text (UNSTABLE included), and notified = 0. -/
def jenkinsNotifyFilter (r : JenkinsBuildRow) : Bool :=
  (r.buildStatus = "SUCCESS" || r.buildStatus = "FAILURE" ||
   r.buildStatus = "ABORTED" || r.buildStatus = "UNSTABLE") &&
    r.notified = 0

/-- WorkflowManager.get_pending_jenkins_notifications: filter, ORDER BY
build_end_time ASC, LIMIT. -/
def getPendingJenkinsNotifications (rows : List JenkinsBuildRow) (limit : Nat) :
    List JenkinsBuildRow :=
  (sortByLe (fun a b => optIntLe a.buildEndTime b.buildEndTime)
    (rows.filter jenkinsNotifyFilter)).take limit

/-- The call with the default limit of 100. -/
def getPendingJenkinsNotificationsDefault (rows : List JenkinsBuildRow) :
    List JenkinsBuildRow :=
  getPendingJenkinsNotifications rows 100

/-! ## The Jenkins poll loop (src/jenkins_ops/monitor.py) -/

/-- The build-info JSON of one Jenkins poll, restricted to the keys the
monitor reads.  A real Jenkins build document carries building, result,
duration and url; it has no status key, so statusField is none on every
payload Jenkins returns. -/
structure JBuildInfo where
  building : Bool
  result : Option String
  statusField : Option String
  url : Option String
  duration : Option Int
deriving DecidableEq

/-- Python truthiness of an optional string. -/
def truthyOptStr : Option String → Bool
  | none => false
  | some s => s ≠ ""

/-- The columns one _update_build_status call writes (a none field
is not in update_data and not written). -/
structure JUpdateData where
  buildStatus : String
  buildEndTime : Option Int
  buildDuration : Option Int
  jobUrl : Option String
deriving DecidableEq

/-- JenkinsMonitor._update_build_status: always write build_status;
write build_end_time and build_duration only when the info is present,
not building, and its status key is truthy; write job_url when the url
key is truthy.  now models int of time.time at the call. -/
def updateBuildStatusFields (buildInfo : Option JBuildInfo) (buildStatus : String)
    (now : Int) : JUpdateData :=
  match buildInfo with
  | none =>
    { buildStatus := buildStatus, buildEndTime := none, buildDuration := none, jobUrl := none }
  | some bi =>
    let withTimes := !bi.building && truthyOptStr bi.statusField
    { buildStatus := buildStatus
      buildEndTime := if withTimes then some now else none
      buildDuration := if withTimes then some (bi.duration.getD 0) else none
      jobUrl := if truthyOptStr bi.url then bi.url else none }

/-- What one iteration of the monitor_build poll loop decides. -/
inductive PollDecision
  | continueQueued
  | continueBuilding
  | exitTerminal (st : String)
  | continueUnknown
deriving DecidableEq

/-- The branch structure of one iteration of JenkinsMonitor.monitor_build:
a missing document keeps polling as QUEUED; building keeps polling;
SUCCESS, FAILURE, ABORTED and UNSTABLE results exit the loop with that
terminal state; anything else keeps polling. -/
def monitorPollStep (buildInfo : Option JBuildInfo) : PollDecision :=
  match buildInfo with
  | none => PollDecision.continueQueued
  | some bi =>
    if bi.building then PollDecision.continueBuilding
    else
      match bi.result with
      | some r =>
        if r = "SUCCESS" || r = "FAILURE" || r = "ABORTED" || r = "UNSTABLE" then
          PollDecision.exitTerminal r
        else PollDecision.continueUnknown
      | none => PollDecision.continueUnknown

/-- Apply one update to a jenkins_builds row, as
WorkflowManager.update_jenkins_build does for the fields
_update_build_status passes. -/
def applyJenkinsUpdate (r : JenkinsBuildRow) (u : JUpdateData) : JenkinsBuildRow :=
  { r with
    buildStatus := u.buildStatus
    buildEndTime := match u.buildEndTime with | some v => some v | none => r.buildEndTime
    buildDuration := match u.buildDuration with | some v => some v | none => r.buildDuration
    jobUrl := match u.jobUrl with | some v => some v | none => r.jobUrl }

/-! ## The notifiers (src/sso/notifier.py and src/jenkins_ops/notifier.py,
_send_to_workflow_groups of each) -/

/-- One outbound chat message: the destination chat and the
reply_to_message_id parameter when one is passed. -/
structure SendAction where
  chatId : Int
  replyTo : Option Int
deriving DecidableEq

/-- The data both notifiers read off the workflow: the stored
group-to-root-message map (in insertion order) and the raw
submission_data blob. -/
structure NotifyWorkflowData where
  groupMessages : List (Int × Int)
  submissionData : List Char
deriving DecidableEq

/-- projects to group_ids, from the project-options document. -/
abbrev ProjectGroups := List (List Char × List Int)

/-- options of the project name, then its group_ids, defaulting empty. -/
def lookupGroupIds (options : ProjectGroups) (p : List Char) : List Int :=
  match options.find? (fun e => e.1 = p) with
  | some e => e.2
  | none => []

/-- Both notifiers recover the project name from submission_data with
the same project-label regex the parser uses. -/
def projectFromSubmission (sd : List Char) : Option (List Char) :=
  (findLabel projectLabel sd).map trimChars

/-- SSONotifier._send_to_workflow_groups: with no stored group messages,
fall back to a plain send in every configured group of the project parsed
from submission_data (nothing is sent when the project cannot be resolved or
has no groups); with stored group messages, send a plain message to each
group — the stored message id is bound in the loop but not passed, so no
reply_to_message_id is used. -/
def ssoSendToWorkflowGroups (options : ProjectGroups) (wd : NotifyWorkflowData) :
    List SendAction :=
  let mainLoop := wd.groupMessages.map (fun gm => SendAction.mk gm.1 none)
  if wd.groupMessages = [] then
    match projectFromSubmission wd.submissionData with
    | some p =>
      let gids := lookupGroupIds options p
      if gids ≠ [] then gids.map (fun g => SendAction.mk g none)
      else mainLoop
    | none => mainLoop
  else mainLoop

/-- JenkinsNotifier._send_to_workflow_groups: same fallback, but the
main loop replies to the stored root approval message of each group. -/
def jenkinsSendToWorkflowGroups (options : ProjectGroups) (wd : NotifyWorkflowData) :
    List SendAction :=
  let mainLoop := wd.groupMessages.map (fun gm => SendAction.mk gm.1 (some gm.2))
  if wd.groupMessages = [] then
    match projectFromSubmission wd.submissionData with
    | some p =>
      let gids := lookupGroupIds options p
      if gids ≠ [] then gids.map (fun g => SendAction.mk g none)
      else mainLoop
    | none => mainLoop
  else mainLoop

/-! ## The Jenkins build limiter and the trigger fan-out
(src/jenkins_ops/client.py JenkinsBuildLimiter,
src/handlers/approval_handler.py ApprovalHandler._trigger_jenkins_build) -/

/-- JenkinsBuildLimiter._get_semaphore: the semaphore capacity for a
project is max_concurrent clamped to at least one. -/
def limiterCapacity (maxConcurrent : Int) : Int :=
  max 1 maxConcurrent

/-- The process-lifetime semaphore map of JenkinsBuildLimiter: one entry
per project name, created on first use and never replaced. -/
def limiterGetSemaphore (sems : List (String × Int)) (project : String)
    (maxConcurrent : Int) : List (String × Int) × Int :=
  match sems.find? (fun e => e.1 = project) with
  | some e => (sems, e.2)
  | none =>
    let capacity := limiterCapacity maxConcurrent
    (sems ++ [(project, capacity)], capacity)

/-- The observable steps of the per-service body of the
_trigger_jenkins_build loop, plus the slot events JenkinsBuildLimiter
would contribute if its reserve context manager were entered. -/
inductive TriggerEvent
  | acquireSlot (project : String)
  | releaseSlot (project : String)
  | triggerBegin (project : String) (service : String)
  | triggerEnd (project : String) (service : String)
  | waitForStart (service : String)
  | createRecord (service : String)
  | spawnMonitor (service : String)
deriving DecidableEq

/-- The event trace of ApprovalHandler._trigger_jenkins_build once the
gates have passed: for each service in order, the blocking trigger_build
call (begin and end bracket its in-flight span), wait_for_build_to_start,
create_jenkins_build and the spawned monitor task.  The loop body never
calls JenkinsBuildLimiter.reserve, so no slot events appear. -/
def triggerFanoutTrace (project : String) (services : List String) : List TriggerEvent :=
  services.flatMap (fun s =>
    [TriggerEvent.triggerBegin project s, TriggerEvent.triggerEnd project s,
     TriggerEvent.waitForStart s, TriggerEvent.createRecord s,
     TriggerEvent.spawnMonitor s])

/-- An interleaving of two traces, modelling two concurrently running
approval fan-out tasks on the single event loop. -/
inductive Interleave : List α → List α → List α → Prop
  | nil : Interleave [] [] []
  | left {x : α} {xs ys zs : List α} :
      Interleave xs ys zs → Interleave (x :: xs) ys (x :: zs)
  | right {y : α} {xs ys zs : List α} :
      Interleave xs ys zs → Interleave xs (y :: ys) (y :: zs)

/-- How many trigger_build calls for the project are in flight after a
trace: begins minus ends. -/
def inFlight (project : String) (t : List TriggerEvent) : Int :=
  (t.filter (fun e =>
    match e with
    | TriggerEvent.triggerBegin p _ => p = project
    | _ => false)).length -
  (t.filter (fun e =>
    match e with
    | TriggerEvent.triggerEnd p _ => p = project
    | _ => false)).length

/-- Is an event a limiter slot acquisition? -/
def isAcquire : TriggerEvent → Bool
  | TriggerEvent.acquireSlot _ => true
  | _ => false

/-! ## The SSO submit orchestration
(src/handlers/approval_handler.py ApprovalHandler._submit_to_sso,
src/sso/client.py SSOClient, src/sso/config.py SSOConfig) -/

/-- SSOConfig.validate: enabled, and url, auth token and authorization
all non-empty. -/
def ssoConfigValidate (enabled : Bool) (url authToken authorization : String) : Bool :=
  enabled && url ≠ "" && authToken ≠ "" && authorization ≠ ""

/-- The keyword parameters SSOClient.__init__ declares: none — its only
parameter is self. -/
def ssoClientInitKeywords : List String := []

/-- The keyword arguments the orchestration passes when it constructs the
client: SSOClient with project_name. -/
def ssoClientCallSiteKwargs : List String := ["project_name"]

/-- Python call binding: the call succeeds only when every keyword
argument names a declared parameter; an unexpected keyword raises a
TypeError. -/
def ssoClientCallBinds : Bool :=
  ssoClientCallSiteKwargs.all (fun k => ssoClientInitKeywords.contains k)

/-- The downstream responses one _submit_to_sso run can observe, as an
oracle: the job-id query may raise or return ids, the ticket POST may
raise, succeed with a processInstanceId, or succeed without one. -/
structure SsoEnv where
  jobIdsResult : Except String (List String)
  submitResult : Except String (Option String)
  releaseIds : List Int

/-- The end state of one _submit_to_sso run. -/
inductive SsoSubmitResult
  | skippedDisabled
  | skippedInvalidConfig
  | failed
  | succeeded (pid : String)
deriving DecidableEq

/-- The except branch of _submit_to_sso: every exception lands in one
update_sso_submission_status call that sets the row of submission_id
(equal to the workflow id) to failed — an UPDATE, which creates nothing
when that row does not exist. -/
def ssoFailPath (store : SsoStore) (wid : String) (err : String) :
    SsoStore × SsoSubmitResult × Bool :=
  (updateSsoSubmissionStatus store wid "failed" none (some err),
    SsoSubmitResult.failed, false)

/-- ApprovalHandler._submit_to_sso, projected onto the sso_submissions
store.  The returned Bool records whether the submit POST was performed.
In source order: the enabled gate, the validate gate, the submission
parse with its project, environment and services checks, the
construction of the SSO client (which binds the call-site keyword
arguments against SSOClient.__init__), the job-id query with its count
check, the payload conversion with its hash count check, the creation of
the pending row, the submit POST, the processInstanceId extraction and
the success update.  Every raise flows to ssoFailPath. -/
def submitToSso (enabled valid : Bool) (env : SsoEnv) (wid : String)
    (submissionData : List Char) (store : SsoStore) :
    SsoStore × SsoSubmitResult × Bool :=
  if !enabled then (store, SsoSubmitResult.skippedDisabled, false)
  else if !valid then (store, SsoSubmitResult.skippedInvalidConfig, false)
  else if submissionData = [] then ssoFailPath store wid "缺少 submission_data"
  else
    let tg := parseTgSubmissionData submissionData
    match tg.project with
    | none => ssoFailPath store wid "无法解析项目名称"
    | some _ =>
      match tg.environment with
      | none => ssoFailPath store wid "无法解析环境"
      | some _ =>
      if tg.services = [] then ssoFailPath store wid "未找到服务列表"
      else if !ssoClientCallBinds then
        ssoFailPath store wid "TypeError: unexpected keyword argument project_name"
      else
        match env.jobIdsResult with
        | Except.error e => ssoFailPath store wid e
        | Except.ok jobIds =>
          if jobIds = [] || jobIds.length ≠ tg.services.length then
            ssoFailPath store wid "获取 Job ID 失败或数量不匹配"
          else if tg.services.length ≠ tg.hashes.length then
            ssoFailPath store wid "服务数量与 hash 数量不一致"
          else
            match createSsoSubmission store wid "order_data" none with
            | (store1, none) => ssoFailPath store1 wid "IntegrityError"
            | (store1, some _) =>
              match env.submitResult with
              | Except.error e => ssoFailPath store1 wid e
              | Except.ok none => ssoFailPath store1 wid "未找到 processInstanceId"
              | Except.ok (some pid) =>
                (updateSsoSubmissionStatus store1 wid "success" (some "resp") none,
                  SsoSubmitResult.succeeded pid, true)

/-! ## Concrete sample data used in witnesses and counterexamples -/

/-- A representative default-form submission, as in scenario S1 of the
specification. -/
def sampleFd : FormData :=
  { applyTime := "2024-01-01 10:00:00".toList
    project := "EBPAY".toList
    environment := "UAT".toList
    services := ["svc-a".toList, "svc-b".toList]
    address := []
    hashVal := "abc123".toList
    branch := "main".toList
    content := "bugfix".toList }

/-- An address-only form submission (scenario S6), two address lines. -/
def addrFd1 : FormData :=
  { applyTime := "2024-01-01 10:00:00".toList
    project := "LINKS".toList
    environment := "TRC".toList
    services := ["link-node".toList]
    address := ["addr1".toList, "addr2".toList]
    hashVal := "-".toList
    branch := "-".toList
    content := "-".toList }

/-- The same address-only form with a different address list. -/
def addrFd2 : FormData :=
  { addrFd1 with address := ["addrX".toList] }

/-- A default form whose custom branch input happens to contain the hash
field label; the branch step accepts any non-empty stripped text. -/
def labelInBranchFd : FormData :=
  { applyTime := "2024-01-01 10:00:00".toList
    project := "EBPAY".toList
    environment := "UAT".toList
    services := ["svc-a".toList]
    address := []
    hashVal := "abc123".toList
    branch := "申请发版hash: a,b".toList
    content := "fix".toList }

/-- A one-row workflows store holding a pending workflow. -/
def samplePendingStore : WStore :=
  [{ workflowId := "WF-20240101-ABCDEF01"
     status := WStatus.pending
     approverId := none
     approverUsername := none
     approvalTime := none
     approvalComment := none }]

/-- An sso_build_status row stuck in TIMEOUT and never notified. -/
def ssoRowTimeout : SsoBuildRow :=
  { buildId := "BUILD-1", workflowId := "WF-1", buildStatus := "TIMEOUT"
    notified := 0, buildEndTime := some 50 }

/-- An sso_build_status row finished in SUCCESS and never notified. -/
def ssoRowSuccess : SsoBuildRow :=
  { buildId := "BUILD-2", workflowId := "WF-1", buildStatus := "SUCCESS"
    notified := 0, buildEndTime := some 60 }

/-- A jenkins_builds row stuck in ERROR and never notified. -/
def jenkinsRowError : JenkinsBuildRow :=
  { buildId := "JENKINS-1", workflowId := "WF-1", jobName := "uat/svc-a"
    jobUrl := none, buildNumber := some 12, buildStatus := "ERROR"
    buildEndTime := some 70, buildDuration := none, notified := 0 }

/-- A jenkins_builds row finished UNSTABLE and never notified. -/
def jenkinsRowUnstable : JenkinsBuildRow :=
  { buildId := "JENKINS-2", workflowId := "WF-1", jobName := "uat/svc-b"
    jobUrl := none, buildNumber := some 13, buildStatus := "UNSTABLE"
    buildEndTime := some 80, buildDuration := none, notified := 0 }

/-- A finished SUCCESS payload as Jenkins returns it: building false,
a result, a url and a duration in milliseconds, and no status key. -/
def sampleSuccessInfo : JBuildInfo :=
  { building := false, result := some "SUCCESS", statusField := none
    url := some "https://jenkins.example/job/uat/job/svc-a/12/"
    duration := some 120000 }

/-- A jenkins_builds row as created right after the build started:
still BUILDING, no end time, no duration. -/
def sampleFreshJenkinsRow : JenkinsBuildRow :=
  { buildId := "JENKINS-3", workflowId := "WF-1", jobName := "uat/svc-a"
    jobUrl := none, buildNumber := some 12, buildStatus := "BUILDING"
    buildEndTime := none, buildDuration := none, notified := 0 }

/-- An already-approved workflow row. -/
def approvedRow : WorkflowRow :=
  { workflowId := "WF-20240101-ABCDEF01"
    status := WStatus.approved
    approverId := some 123
    approverUsername := some "admin"
    approvalTime := some "2024-01-01 11:00:00"
    approvalComment := some "已通过" }

/-- A one-row store holding the approved workflow. -/
def approvedStore : WStore := [approvedRow]

/-- The sso_submissions call sequence the orchestration performs on a
successful submit: create with a null process_instance_id, then the
success update. -/
def c7SampleOps : List SsoOp :=
  [SsoOp.create "WF-1" "od" none,
   SsoOp.updateStatus "WF-1" "success" (some "resp") none]

/-- The row c7SampleOps leaves in the store. -/
def c7ResultRow : SsoSubmissionRow :=
  { submissionId := "WF-1", workflowId := "WF-1", processInstanceId := none
    orderData := "od", submitStatus := "success"
    submitResponse := some "resp", errorMessage := none }

/-- Notifier workflow data with one stored root message. -/
def sampleNotifyWd : NotifyWorkflowData :=
  { groupMessages := [(-1001, 42)]
    submissionData := formatSubmissionDataDefault ("main".toList) sampleFd }

/-! ## Generic list lemmas -/

theorem length_dropWhile_le (p : α → Bool) (l : List α) :
    (l.dropWhile p).length ≤ l.length := by
  induction l with
  | nil => simp
  | cons c cs ih =>
    by_cases h : p c
    · simpa [List.dropWhile_cons, h] using Nat.le_succ_of_le ih
    · simp [List.dropWhile_cons, h]

theorem dropWhile_append_of_head (p : α → Bool) (x : α) (l r : List α)
    (h : p x = false) : ((x :: l) ++ r).dropWhile p = (x :: l) ++ r := by
  simp [List.dropWhile_cons, h]

theorem takeWhile_notNl_append (l r : List Char) (h : ∀ c ∈ l, c ≠ '\n') :
    (l ++ '\n' :: r).takeWhile notNl = l := by
  induction l with
  | nil => simp [List.takeWhile_cons, notNl]
  | cons c cs ih =>
    have hc : (notNl c) = true := by
      simp [notNl, h c (by simp)]
    simp only [List.cons_append, List.takeWhile_cons, hc, if_true]
    rw [ih (fun d hd => h d (by simp [hd]))]

theorem takeWhile_notNl_of_all (l : List Char) (h : ∀ c ∈ l, c ≠ '\n') :
    l.takeWhile notNl = l := by
  induction l with
  | nil => simp
  | cons c cs ih =>
    have hc : (notNl c) = true := by
      simp [notNl, h c (by simp)]
    simp only [List.takeWhile_cons, hc, if_true]
    rw [ih (fun d hd => h d (by simp [hd]))]

theorem takeWhile_notNl_append_nl (v r : List Char) :
    (v ++ '\n' :: r).takeWhile notNl = v.takeWhile notNl := by
  induction v with
  | nil => simp [List.takeWhile_cons, notNl]
  | cons c cs ih =>
    by_cases hc : c = '\n'
    · simp [List.takeWhile_cons, notNl, hc]
    · simp only [List.cons_append, List.takeWhile_cons]
      have : notNl c = true := by simp [notNl, hc]
      simp [this, ih]

/-! ## Lemmas about findLabel -/

theorem isPrefixOf_append_self (l t : List Char) : l.isPrefixOf (l ++ t) = true := by
  rw [ List.isPrefixOf_iff_prefix]
  exact List.prefix_append l t

theorem labelMatchAt_head (lab post : List Char) :
    labelMatchAt lab (lab ++ ':' :: post) = true := by
  unfold labelMatchAt
  rw [isPrefixOf_append_self, List.drop_left]
  simp

theorem isPrefixOf_append_of_le (lab s t : List Char) (h : lab.length ≤ s.length) :
    lab.isPrefixOf (s ++ t) = lab.isPrefixOf s := by
  induction lab generalizing s with
  | nil => simp [List.isPrefixOf]
  | cons a as ih =>
    cases s with
    | nil => simp at h
    | cons b bs =>
      simp only [List.cons_append, List.isPrefixOf]
      have hle : as.length ≤ bs.length := by
        simp only [List.length_cons] at h
        omega
      rw [show bs.append t = bs ++ t from rfl, ih bs hle]

theorem labelMatchAt_append_of_long (lab s t : List Char)
    (h : lab.length + 1 ≤ s.length) :
    labelMatchAt lab (s ++ t) = labelMatchAt lab s := by
  unfold labelMatchAt
  rw [isPrefixOf_append_of_le lab s t (Nat.le_of_succ_le h)]
  rw [List.drop_append_eq_append_drop]
  have hlen : 1 ≤ (s.drop lab.length).length := by
    rw [List.length_drop]
    omega
  cases hd : s.drop lab.length with
  | nil => rw [hd] at hlen; simp at hlen
  | cons d ds => simp

theorem findLabel_cons (lab : List Char) (c : Char) (cs : List Char) :
    findLabel lab (c :: cs) =
      if labelMatchAt lab (c :: cs) then captureAfter ((c :: cs).drop (lab.length + 1))
      else findLabel lab cs := rfl

theorem drop_label_colon (lab post : List Char) :
    (lab ++ ':' :: post).drop (lab.length + 1) = post := by
  have : lab ++ ':' :: post = (lab ++ [':']) ++ post := by simp
  rw [this]
  have hlen : (lab ++ [':']).length = lab.length + 1 := by simp
  rw [← hlen, List.drop_left]

theorem findLabel_head (lab post : List Char) :
    findLabel lab (lab ++ ':' :: post) = captureAfter post := by
  cases hl : lab with
  | nil =>
    simp only [List.nil_append]
    rw [findLabel_cons]
    have : labelMatchAt [] (':' :: post) = true := by
      unfold labelMatchAt
      simp [List.isPrefixOf]
    rw [this]
    simp
  | cons a as =>
    rw [List.cons_append, findLabel_cons, ← List.cons_append]
    rw [labelMatchAt_head, if_pos rfl, drop_label_colon]

theorem hasMatch_cons (lab : List Char) (c : Char) (cs : List Char) :
    hasMatch lab (c :: cs) = (labelMatchAt lab (c :: cs) || hasMatch lab cs) := rfl

/-- First-occurrence lemma: when the label-colon pattern has no match
starting anywhere in the prefix (including matches that would run into
the label occurrence itself), the search lands exactly on the emitted
label and reads the capture after its colon. -/
theorem findLabel_of_noEarly (lab pre post : List Char)
    (h : hasMatch lab (pre ++ lab) = false) :
    findLabel lab (pre ++ (lab ++ ':' :: post)) = captureAfter post := by
  induction pre with
  | nil => simpa using findLabel_head lab post
  | cons c cs ih =>
    rw [List.cons_append, findLabel_cons]
    rw [List.cons_append, hasMatch_cons] at h
    have h1 : labelMatchAt lab (c :: (cs ++ lab)) = false := by
      cases hm : labelMatchAt lab (c :: (cs ++ lab)) with
      | false => rfl
      | true => rw [hm] at h; simp at h
    have h2 : hasMatch lab (cs ++ lab) = false := by
      cases hm : hasMatch lab (cs ++ lab) with
      | false => rfl
      | true => rw [hm] at h; simp at h
    have hshape : c :: (cs ++ (lab ++ ':' :: post)) =
        (c :: (cs ++ lab)) ++ (':' :: post) := by simp
    have hlong : lab.length + 1 ≤ (c :: (cs ++ lab)).length := by
      simp only [List.length_cons, List.length_append]
      omega
    have hfalse : labelMatchAt lab (c :: (cs ++ (lab ++ ':' :: post))) = false := by
      rw [hshape, labelMatchAt_append_of_long lab _ _ hlong, h1]
    rw [hfalse]
    simp only [if_false, Bool.false_eq_true]
    exact ih h2

/-! ## Lemmas about trimming and captures -/

theorem head_not_ws_of_dropWhile_self (x : Char) (xs : List Char)
    (h : (x :: xs).dropWhile isWsChar = x :: xs) : isWsChar x = false := by
  cases hx : isWsChar x with
  | false => rfl
  | true =>
    rw [List.dropWhile_cons, hx] at h
    simp only [if_true] at h
    have := length_dropWhile_le isWsChar xs
    have hlen : (List.dropWhile isWsChar xs).length = (x :: xs).length := by rw [h]
    simp only [List.length_cons] at hlen
    omega

theorem mem_of_mem_trimChars (c : Char) (l : List Char) (h : c ∈ trimChars l) : c ∈ l := by
  unfold trimChars at h
  rw [List.mem_reverse] at h
  have h1 := (@List.dropWhile_sublist Char (l.dropWhile isWsChar).reverse isWsChar).mem h
  rw [List.mem_reverse] at h1
  exact (List.dropWhile_sublist isWsChar).mem h1

theorem trimChars_cons_space (l : List Char) : trimChars (' ' :: l) = trimChars l := by
  unfold trimChars
  rw [List.dropWhile_cons]
  simp [isWsChar]

theorem trimChars_eq_reverse_of_nows (l : List Char) (h : l.dropWhile isWsChar = l) :
    trimChars l = (l.reverse.dropWhile isWsChar).reverse := by
  unfold trimChars
  rw [h]

theorem trimChars_cons_ne_nil (x : Char) (l : List Char) (hx : isWsChar x = false) :
    trimChars (x :: l) ≠ [] := by
  have hdrop : (x :: l).dropWhile isWsChar = x :: l := by
    rw [List.dropWhile_cons, hx]
    simp
  rw [trimChars_eq_reverse_of_nows _ hdrop]
  intro hnil
  have h0 : (x :: l).reverse.dropWhile isWsChar = [] := by
    have := congrArg List.reverse hnil
    simpa using this
  rw [List.dropWhile_eq_nil_iff] at h0
  have hx2 := h0 x (by simp)
  rw [hx] at hx2
  exact Bool.false_ne_true hx2

theorem trimChars_cons_head (x : Char) (l : List Char) (hx : isWsChar x = false) :
    ∃ y, trimChars (x :: l) = x :: y := by
  have hdrop : (x :: l).dropWhile isWsChar = x :: l := by
    rw [List.dropWhile_cons, hx]
    simp
  rw [trimChars_eq_reverse_of_nows _ hdrop]
  have hrev : (x :: l).reverse = l.reverse ++ [x] := by simp
  rw [hrev, List.dropWhile_append]
  by_cases hempty : (l.reverse.dropWhile isWsChar).isEmpty
  · rw [if_pos hempty]
    refine ⟨[], ?_⟩
    simp [List.dropWhile_cons, hx]
  · rw [if_neg hempty]
    exact ⟨(l.reverse.dropWhile isWsChar).reverse, by simp⟩

theorem dropWhile_eq_self_of_trim_eq (v : List Char) (h : trimChars v = v) :
    v.dropWhile isWsChar = v := by
  cases v with
  | nil => simp
  | cons x xs =>
    cases hx : isWsChar x with
    | false =>
      rw [List.dropWhile_cons, hx]
      simp
    | true =>
      exfalso
      have hlen1 : (trimChars (x :: xs)).length ≤ ((x :: xs).dropWhile isWsChar).length := by
        unfold trimChars
        rw [List.length_reverse]
        calc (((x :: xs).dropWhile isWsChar).reverse.dropWhile isWsChar).length
            ≤ ((x :: xs).dropWhile isWsChar).reverse.length :=
              length_dropWhile_le _ _
          _ = ((x :: xs).dropWhile isWsChar).length := by rw [List.length_reverse]
      rw [List.dropWhile_cons, hx] at hlen1
      simp only [if_true] at hlen1
      have hlen2 := length_dropWhile_le isWsChar xs
      rw [h] at hlen1
      simp only [List.length_cons] at hlen1
      omega

theorem captureAfter_space_line (v r : List Char) (hne : v ≠ [])
    (hld : v.dropWhile isWsChar = v) (hnl : ∀ c ∈ v, c ≠ '\n') :
    captureAfter (' ' :: (v ++ '\n' :: r)) = some v := by
  unfold captureAfter
  cases v with
  | nil => exact absurd rfl hne
  | cons x xs =>
    have hx := head_not_ws_of_dropWhile_self x xs hld
    rw [List.dropWhile_cons]
    simp only [show isWsChar ' ' = true by rfl, if_true]
    rw [List.cons_append, List.dropWhile_cons, hx]
    simp only [if_false, Bool.false_eq_true]
    rw [← List.cons_append, takeWhile_notNl_append _ _ hnl]
    simp [hne]

theorem captureAfter_space_end (v : List Char) (hne : v ≠ [])
    (hld : v.dropWhile isWsChar = v) (hnl : ∀ c ∈ v, c ≠ '\n') :
    captureAfter (' ' :: v) = some v := by
  unfold captureAfter
  cases v with
  | nil => exact absurd rfl hne
  | cons x xs =>
    have hx := head_not_ws_of_dropWhile_self x xs hld
    rw [List.dropWhile_cons]
    simp only [show isWsChar ' ' = true by rfl, if_true]
    rw [List.dropWhile_cons, hx]
    simp only [if_false, Bool.false_eq_true]
    rw [takeWhile_notNl_of_all _ hnl]
    simp [hne]

theorem captureAfter_space_firstline (v r : List Char) (hne : v ≠ [])
    (hld : v.dropWhile isWsChar = v) :
    captureAfter (' ' :: (v ++ '\n' :: r)) = some (v.takeWhile notNl) := by
  unfold captureAfter
  cases v with
  | nil => exact absurd rfl hne
  | cons x xs =>
    have hx := head_not_ws_of_dropWhile_self x xs hld
    rw [List.dropWhile_cons]
    simp only [show isWsChar ' ' = true by rfl, if_true]
    rw [List.cons_append, List.dropWhile_cons, hx]
    simp only [if_false, Bool.false_eq_true]
    rw [← List.cons_append, takeWhile_notNl_append_nl]
    have hxnl : notNl x = true := by
      by_cases hc : x = '\n'
      · exfalso
        have : isWsChar x = true := by
          subst hc
          rfl
        rw [hx] at this
        exact Bool.false_ne_true this
      · simp [notNl, hc]
    rw [List.takeWhile_cons, hxnl]
    simp

/-! ## Lemmas about splitting and joining -/

/-- A form value that survives the round trip through one emitted line:
non-empty, strip-invariant and single-line. -/
abbrev CleanVal (v : List Char) : Prop :=
  v ≠ [] ∧ trimChars v = v ∧ ∀ c ∈ v, c ≠ '\n'

/-- A service or hash token additionally free of every separator the
parser splits on. -/
abbrev CleanTok (v : List Char) : Prop :=
  CleanVal v ∧ ∀ c ∈ v, c ≠ ',' ∧ c ≠ '，' ∧ c ≠ '、'

theorem normalizeSeps_eq_self (l : List Char) (h : ∀ c ∈ l, c ≠ '，' ∧ c ≠ '、') :
    normalizeSeps l = l := by
  unfold normalizeSeps
  induction l with
  | nil => rfl
  | cons c cs ih =>
    simp only [List.map_cons]
    have hc := h c (by simp)
    rw [ih (fun d hd => h d (by simp [hd]))]
    simp [hc.1, hc.2]

theorem splitOnPred_ne_nil (p : Char → Bool) (l : List Char) : splitOnPred p l ≠ [] := by
  cases l with
  | nil => simp [splitOnPred]
  | cons c cs =>
    unfold splitOnPred
    by_cases hc : p c
    · simp [hc]
    · simp only [hc]
      cases h : splitOnPred p cs <;> simp

theorem splitOnPred_no_sep (p : Char → Bool) (l : List Char)
    (h : ∀ c ∈ l, p c = false) : splitOnPred p l = [l] := by
  induction l with
  | nil => rfl
  | cons c cs ih =>
    unfold splitOnPred
    rw [h c (by simp)]
    simp only [Bool.false_eq_true, if_false]
    rw [ih (fun d hd => h d (by simp [hd]))]

theorem splitOnPred_cons (p : Char → Bool) (c : Char) (cs : List Char) :
    splitOnPred p (c :: cs) =
      if p c then [] :: splitOnPred p cs
      else
        match splitOnPred p cs with
        | [] => [[c]]
        | t :: ts => (c :: t) :: ts := rfl

theorem splitOnPred_append_sep (p : Char → Bool) (s : List Char) (c : Char)
    (t : List Char) (hs : ∀ x ∈ s, p x = false) (hc : p c = true) :
    splitOnPred p (s ++ c :: t) = s :: splitOnPred p t := by
  induction s with
  | nil =>
    rw [List.nil_append, splitOnPred_cons, if_pos hc]
  | cons a as ih =>
    rw [List.cons_append, splitOnPred_cons]
    rw [hs a (by simp)]
    simp only [Bool.false_eq_true, if_false]
    rw [ih (fun x hx => hs x (by simp [hx]))]

theorem cleanPieces_cons_space (t : List Char) (ts : List (List Char)) :
    cleanPieces ((' ' :: t) :: ts) = cleanPieces (t :: ts) := by
  unfold cleanPieces
  simp only [List.map_cons]
  rw [trimChars_cons_space]

theorem mem_joinSep (sep : List Char) (l : List (List Char)) (c : Char)
    (h : c ∈ joinSep sep l) : c ∈ sep ∨ ∃ x ∈ l, c ∈ x := by
  induction l with
  | nil => simp [joinSep] at h
  | cons x xs ih =>
    cases xs with
    | nil =>
      simp only [joinSep] at h
      exact Or.inr ⟨x, by simp, h⟩
    | cons y ys =>
      simp only [joinSep, List.mem_append] at h
      rcases h with (h | h) | h
      · exact Or.inr ⟨x, by simp, h⟩
      · exact Or.inl h
      · rcases ih h with h1 | ⟨z, hz, hcz⟩
        · exact Or.inl h1
        · exact Or.inr ⟨z, by simp [hz], hcz⟩

theorem parseServicesField_join (svcs : List (List Char)) (hne : svcs ≠ [])
    (h : ∀ s ∈ svcs, CleanTok s) :
    parseServicesField (joinSep (", ".toList) svcs) = svcs := by
  unfold parseServicesField
  have hnorm : normalizeSeps (joinSep (", ".toList) svcs) = joinSep (", ".toList) svcs := by
    apply normalizeSeps_eq_self
    intro c hc
    rcases mem_joinSep _ _ _ hc with hsep | ⟨x, hx, hcx⟩
    · constructor <;> (intro hcontra; rw [hcontra] at hsep; simp [String.toList] at hsep)
    · exact ⟨((h x hx).2 c hcx).2.1, ((h x hx).2 c hcx).2.2⟩
  rw [hnorm]
  clear hnorm
  induction svcs with
  | nil => exact absurd rfl hne
  | cons s rest ih =>
    rcases h s (by simp) with ⟨⟨hsne, hstrim, _⟩, hsep⟩
    have hnocomma : ∀ x ∈ s, decide (x = ',') = false :=
      fun x hx => decide_eq_false ((hsep x hx).1)
    cases rest with
    | nil =>
      simp only [joinSep]
      rw [splitOnPred_no_sep _ _ hnocomma]
      unfold cleanPieces
      simp [hstrim, hsne]
    | cons s2 rest2 =>
      have hjoin : joinSep (", ".toList) (s :: s2 :: rest2) =
          s ++ ',' :: ' ' :: joinSep (", ".toList) (s2 :: rest2) := by
        simp [joinSep, String.toList]
      rw [hjoin]
      rw [splitOnPred_append_sep _ _ _ _ hnocomma (by simp)]
      have hsplit2 : splitOnPred (fun c => c = ',') (' ' :: joinSep (", ".toList) (s2 :: rest2)) =
          match splitOnPred (fun c => c = ',') (joinSep (", ".toList) (s2 :: rest2)) with
          | [] => [[' ']]
          | t :: ts => (' ' :: t) :: ts := by
        rw [splitOnPred_cons]
        simp
      cases hs2 : splitOnPred (fun c => c = ',') (joinSep (", ".toList) (s2 :: rest2)) with
      | nil => exact absurd hs2 (splitOnPred_ne_nil _ _)
      | cons t ts =>
        rw [hsplit2, hs2]
        have hclean : cleanPieces (s :: (' ' :: t) :: ts) =
            s :: cleanPieces ((' ' :: t) :: ts) := by
          unfold cleanPieces
          simp [hstrim, hsne]
        rw [hclean, cleanPieces_cons_space, ← hs2]
        rw [ih (by simp) (fun x hx => h x (by simp [hx]))]

theorem reverse_dropWhile_eq_self_of_trim_eq (v : List Char) (h : trimChars v = v) :
    v.reverse.dropWhile isWsChar = v.reverse := by
  have h1 := dropWhile_eq_self_of_trim_eq v h
  have h2 : (v.reverse.dropWhile isWsChar).reverse = v := by
    unfold trimChars at h
    rw [h1] at h
    exact h
  have h3 := congrArg List.reverse h2
  simpa using h3

theorem trimChars_eq_self_of_both (v : List Char)
    (h1 : v.dropWhile isWsChar = v) (h2 : v.reverse.dropWhile isWsChar = v.reverse) :
    trimChars v = v := by
  unfold trimChars
  rw [h1, h2, List.reverse_reverse]

theorem joinSep_ne_nil (sep : List Char) (s : List Char) (rest : List (List Char))
    (hs : s ≠ []) : joinSep sep (s :: rest) ≠ [] := by
  cases rest with
  | nil => simpa [joinSep] using hs
  | cons y ys =>
    simp only [joinSep]
    intro hcontra
    rw [List.append_assoc] at hcontra
    rcases List.append_eq_nil.mp hcontra with ⟨h1, _⟩
    exact hs h1

theorem trim_join_comma (svcs : List (List Char)) (hne : svcs ≠ [])
    (h : ∀ s ∈ svcs, s ≠ [] ∧ trimChars s = s) :
    trimChars (joinSep (", ".toList) svcs) = joinSep (", ".toList) svcs := by
  induction svcs with
  | nil => exact absurd rfl hne
  | cons s rest ih =>
    rcases h s (by simp) with ⟨hsne, hstrim⟩
    cases rest with
    | nil => simpa [joinSep] using hstrim
    | cons s2 rest2 =>
      have hJ : trimChars (joinSep (", ".toList) (s2 :: rest2)) =
          joinSep (", ".toList) (s2 :: rest2) :=
        ih (by simp) (fun x hx => h x (by simp [hx]))
      have hJne : joinSep (", ".toList) (s2 :: rest2) ≠ [] :=
        joinSep_ne_nil _ s2 rest2 (h s2 (by simp)).1
      have hjoin : joinSep (", ".toList) (s :: s2 :: rest2) =
          s ++ ',' :: ' ' :: joinSep (", ".toList) (s2 :: rest2) := by
        simp [joinSep, String.toList]
      rw [hjoin]
      apply trimChars_eq_self_of_both
      · cases hv : s with
        | nil => exact absurd hv hsne
        | cons x xs =>
          have hx : isWsChar x = false := by
            apply head_not_ws_of_dropWhile_self x xs
            rw [← hv]
            exact dropWhile_eq_self_of_trim_eq s hstrim
          rw [List.cons_append, List.dropWhile_cons, hx]
          simp
      · set J := joinSep (", ".toList) (s2 :: rest2) with hJdef
        cases hJv : J.reverse with
        | nil => simp [List.reverse_eq_nil_iff] at hJv; exact absurd hJv hJne
        | cons y ys =>
          have hy : isWsChar y = false := by
            apply head_not_ws_of_dropWhile_self y ys
            rw [← hJv]
            exact reverse_dropWhile_eq_self_of_trim_eq J hJ
          have hrev : (s ++ ',' :: ' ' :: J).reverse = y :: (ys ++ (' ' :: ',' :: s.reverse)) := by
            rw [List.reverse_append]
            simp only [List.reverse_cons]
            rw [hJv]
            simp
          rw [hrev, List.dropWhile_cons, hy]
          simp

theorem parseHashField_single (v : List Char) (hne : v ≠ [])
    (htr : trimChars v = v)
    (hsep : ∀ c ∈ v, c ≠ ',' ∧ c ≠ '，' ∧ c ≠ '、' ∧ c ≠ '\n') :
    parseHashField v = [v] := by
  unfold parseHashField
  rw [normalizeSeps_eq_self v (fun c hc => ⟨(hsep c hc).2.1, (hsep c hc).2.2.1⟩)]
  have hno : ∀ c ∈ v, (decide (c = ',') || decide (c = '\n')) = false := by
    intro c hc
    rw [decide_eq_false ((hsep c hc).1), decide_eq_false ((hsep c hc).2.2.2)]
    rfl
  rw [splitOnPred_no_sep _ _ hno]
  unfold cleanPieces
  simp [htr, hne]

/-! ## Per-line capture lemmas for the emitted format -/

theorem findLabel_at_line (lab pre v rest : List Char)
    (hEarly : hasMatch lab (pre ++ lab) = false)
    (hne : v ≠ []) (htrim : trimChars v = v) (hnl : ∀ c ∈ v, c ≠ '\n') :
    findLabel lab (pre ++ (dLine lab v ++ rest)) = some v := by
  have hshape : pre ++ (dLine lab v ++ rest) =
      pre ++ (lab ++ ':' :: (' ' :: (v ++ '\n' :: rest))) := by
    simp [dLine]
  rw [hshape, findLabel_of_noEarly lab pre _ hEarly]
  exact captureAfter_space_line v rest hne (dropWhile_eq_self_of_trim_eq v htrim) hnl

theorem findLabel_at_line_firstpart (lab pre v rest : List Char)
    (hEarly : hasMatch lab (pre ++ lab) = false)
    (hne : v ≠ []) (hld : v.dropWhile isWsChar = v) :
    findLabel lab (pre ++ (dLine lab v ++ rest)) = some (v.takeWhile notNl) := by
  have hshape : pre ++ (dLine lab v ++ rest) =
      pre ++ (lab ++ ':' :: (' ' :: (v ++ '\n' :: rest))) := by
    simp [dLine]
  rw [hshape, findLabel_of_noEarly lab pre _ hEarly]
  exact captureAfter_space_firstline v rest hne hld

theorem findLabel_at_lastline (lab pre v : List Char)
    (hEarly : hasMatch lab (pre ++ lab) = false)
    (hne : v ≠ []) (htrim : trimChars v = v) (hnl : ∀ c ∈ v, c ≠ '\n') :
    findLabel lab (pre ++ dLineLast lab v) = some v := by
  have hshape : pre ++ dLineLast lab v = pre ++ (lab ++ ':' :: (' ' :: v)) := by
    simp [dLineLast]
  rw [hshape, findLabel_of_noEarly lab pre _ hEarly]
  exact captureAfter_space_end v hne (dropWhile_eq_self_of_trim_eq v htrim) hnl

theorem formatDefault_shape_applyTime (cfg : List Char) (fd : FormData) :
    formatSubmissionDataDefault cfg fd =
      [] ++ (dLine applyTimeLabel fd.applyTime ++
        (dLine projectLabel fd.project ++
        (dLine envLabel fd.environment ++
        (dLine branchLabel (branchText cfg fd) ++
        (dLine servicesLabel (servicesText fd) ++
        (dLine linkAddrLabel (addressText fd) ++
        (dLine hashLabel (hashText fd) ++
        dLineLast contentLabel (contentText fd)))))))) := by
  simp only [formatSubmissionDataDefault, dPreContent, dPreHash, dPreLinkAddr,
    dPreServices, dPreBranch, dPreEnv, dPreProject, List.append_assoc, List.nil_append]

theorem formatDefault_shape_project (cfg : List Char) (fd : FormData) :
    formatSubmissionDataDefault cfg fd =
      dPreProject fd ++ (dLine projectLabel fd.project ++
        (dLine envLabel fd.environment ++
        (dLine branchLabel (branchText cfg fd) ++
        (dLine servicesLabel (servicesText fd) ++
        (dLine linkAddrLabel (addressText fd) ++
        (dLine hashLabel (hashText fd) ++
        dLineLast contentLabel (contentText fd))))))) := by
  simp only [formatSubmissionDataDefault, dPreContent, dPreHash, dPreLinkAddr,
    dPreServices, dPreBranch, dPreEnv, List.append_assoc]

theorem formatDefault_shape_env (cfg : List Char) (fd : FormData) :
    formatSubmissionDataDefault cfg fd =
      dPreEnv fd ++ (dLine envLabel fd.environment ++
        (dLine branchLabel (branchText cfg fd) ++
        (dLine servicesLabel (servicesText fd) ++
        (dLine linkAddrLabel (addressText fd) ++
        (dLine hashLabel (hashText fd) ++
        dLineLast contentLabel (contentText fd)))))) := by
  simp only [formatSubmissionDataDefault, dPreContent, dPreHash, dPreLinkAddr,
    dPreServices, dPreBranch, List.append_assoc]

theorem formatDefault_shape_branch (cfg : List Char) (fd : FormData) :
    formatSubmissionDataDefault cfg fd =
      dPreBranch fd ++ (dLine branchLabel (branchText cfg fd) ++
        (dLine servicesLabel (servicesText fd) ++
        (dLine linkAddrLabel (addressText fd) ++
        (dLine hashLabel (hashText fd) ++
        dLineLast contentLabel (contentText fd))))) := by
  simp only [formatSubmissionDataDefault, dPreContent, dPreHash, dPreLinkAddr,
    dPreServices, List.append_assoc]

theorem formatDefault_shape_services (cfg : List Char) (fd : FormData) :
    formatSubmissionDataDefault cfg fd =
      dPreServices cfg fd ++ (dLine servicesLabel (servicesText fd) ++
        (dLine linkAddrLabel (addressText fd) ++
        (dLine hashLabel (hashText fd) ++
        dLineLast contentLabel (contentText fd)))) := by
  simp only [formatSubmissionDataDefault, dPreContent, dPreHash, dPreLinkAddr,
    List.append_assoc]

theorem formatDefault_shape_hash (cfg : List Char) (fd : FormData) :
    formatSubmissionDataDefault cfg fd =
      dPreHash cfg fd ++ (dLine hashLabel (hashText fd) ++
        dLineLast contentLabel (contentText fd)) := by
  simp only [formatSubmissionDataDefault, dPreContent, List.append_assoc]

theorem formatDefault_shape_content (cfg : List Char) (fd : FormData) :
    formatSubmissionDataDefault cfg fd =
      dPreContent cfg fd ++ dLineLast contentLabel (contentText fd) := rfl

/-- Claim C4, amended part: on a default-form output whose field values
are non-empty, strip-invariant, single-line, whose service and hash
tokens are free of the comma separators, and whose values do not
re-introduce a field label ahead of its emitted line, the parser
recovers exactly the chosen apply time, project, environment, services,
the single hash, the branch and the content.  The parser has no
addresses output at all. -/
theorem c4_default_form_roundtrip (cfg : List Char) (fd : FormData)
    (hAT : CleanVal fd.applyTime) (hPj : CleanVal fd.project)
    (hEv : CleanVal fd.environment) (hBr : CleanVal fd.branch)
    (hCt : CleanVal fd.content)
    (hSne : fd.services ≠ []) (hSv : ∀ s ∈ fd.services, CleanTok s)
    (hHs : CleanTok fd.hashVal)
    (e1 : hasMatch projectLabel (dPreProject fd ++ projectLabel) = false)
    (e2 : hasMatch envLabel (dPreEnv fd ++ envLabel) = false)
    (e3 : hasMatch branchLabel (dPreBranch fd ++ branchLabel) = false)
    (e4 : hasMatch servicesLabel (dPreServices cfg fd ++ servicesLabel) = false)
    (e5 : hasMatch hashLabel (dPreHash cfg fd ++ hashLabel) = false)
    (e6 : hasMatch contentLabel (dPreContent cfg fd ++ contentLabel) = false) :
    parseTgSubmissionData (formatSubmissionDataDefault cfg fd) =
      { applyTime := some fd.applyTime
        project := some fd.project
        environment := some fd.environment
        services := fd.services
        hashes := [fd.hashVal]
        branch := fd.branch
        content := some fd.content } := by
  have hbt : branchText cfg fd = fd.branch := by
    unfold branchText
    rw [if_neg hBr.1]
  have hht : hashText fd = fd.hashVal := by
    unfold hashText
    rw [if_neg hHs.1.1]
  have hct : contentText fd = fd.content := by
    unfold contentText
    rw [if_neg hCt.1]
  have hsvclean : ∀ s ∈ fd.services, s ≠ [] ∧ trimChars s = s :=
    fun s hs => ⟨(hSv s hs).1.1, (hSv s hs).1.2.1⟩
  have hsvne : servicesText fd ≠ [] := by
    unfold servicesText
    cases hv : fd.services with
    | nil => exact absurd hv hSne
    | cons a rest =>
      exact joinSep_ne_nil _ a rest (hsvclean a (by rw [hv]; simp)).1
  have hsvtrim : trimChars (servicesText fd) = servicesText fd :=
    trim_join_comma fd.services hSne hsvclean
  have hsvnl : ∀ c ∈ servicesText fd, c ≠ '\n' := by
    intro c hc
    unfold servicesText at hc
    rcases mem_joinSep _ _ _ hc with hsep | ⟨x, hx, hcx⟩
    · intro hcn
      rw [hcn] at hsep
      simp [String.toList] at hsep
    · exact (hSv x hx).1.2.2 c hcx
  have f1 : findLabel applyTimeLabel (formatSubmissionDataDefault cfg fd) =
      some fd.applyTime := by
    rw [formatDefault_shape_applyTime]
    exact findLabel_at_line _ [] _ _ (by decide) hAT.1 hAT.2.1 hAT.2.2
  have f2 : findLabel projectLabel (formatSubmissionDataDefault cfg fd) =
      some fd.project := by
    rw [formatDefault_shape_project]
    exact findLabel_at_line _ _ _ _ e1 hPj.1 hPj.2.1 hPj.2.2
  have f3 : findLabel envLabel (formatSubmissionDataDefault cfg fd) =
      some fd.environment := by
    rw [formatDefault_shape_env]
    exact findLabel_at_line _ _ _ _ e2 hEv.1 hEv.2.1 hEv.2.2
  have f4 : findLabel branchLabel (formatSubmissionDataDefault cfg fd) =
      some fd.branch := by
    rw [formatDefault_shape_branch, hbt]
    exact findLabel_at_line _ _ _ _ e3 hBr.1 hBr.2.1 hBr.2.2
  have f5 : findLabel servicesLabel (formatSubmissionDataDefault cfg fd) =
      some (servicesText fd) := by
    rw [formatDefault_shape_services]
    exact findLabel_at_line _ _ _ _ e4 hsvne hsvtrim hsvnl
  have f6 : findLabel hashLabel (formatSubmissionDataDefault cfg fd) =
      some fd.hashVal := by
    rw [formatDefault_shape_hash, hht]
    exact findLabel_at_line _ _ _ _ e5 hHs.1.1 hHs.1.2.1 hHs.1.2.2
  have f7 : findLabel contentLabel (formatSubmissionDataDefault cfg fd) =
      some fd.content := by
    rw [formatDefault_shape_content, hct]
    exact findLabel_at_lastline _ _ _ e6 hCt.1 hCt.2.1 hCt.2.2
  have hsvfield : parseServicesField (servicesText fd) = fd.services :=
    parseServicesField_join fd.services hSne hSv
  have hhfield : parseHashField fd.hashVal = [fd.hashVal] :=
    parseHashField_single fd.hashVal hHs.1.1 hHs.1.2.1
      (fun c hc => ⟨((hHs.2 c hc)).1, ⟨(hHs.2 c hc).2.1, (hHs.2 c hc).2.2, hHs.1.2.2 c hc⟩⟩)
  unfold parseTgSubmissionData
  rw [f1, f2, f3, f4, f5, f6, f7]
  simp only [Option.map_some', hAT.2.1, hPj.2.1, hEv.2.1, hBr.2.1, hCt.2.1,
    hsvtrim, hHs.1.2.1]
  rw [hsvfield, hhfield]
  simp [hBr.1]

/-! ## Idempotence of trimming, and the single-hash lemma -/

theorem dropWhile_idem (p : α → Bool) (l : List α) :
    (l.dropWhile p).dropWhile p = l.dropWhile p := by
  induction l with
  | nil => simp
  | cons c cs ih =>
    by_cases hc : p c
    · simp [List.dropWhile_cons, hc, ih]
    · simp [List.dropWhile_cons, hc]

theorem trim_reverse_dropWhile (x : List Char) :
    (trimChars x).reverse.dropWhile isWsChar = (trimChars x).reverse := by
  unfold trimChars
  rw [List.reverse_reverse]
  exact dropWhile_idem isWsChar _

theorem trim_dropWhile (x : List Char) :
    (trimChars x).dropWhile isWsChar = trimChars x := by
  have hpre : trimChars x <+: x.dropWhile isWsChar := by
    unfold trimChars
    rw [show ((x.dropWhile isWsChar).reverse.dropWhile isWsChar).reverse <+:
        x.dropWhile isWsChar ↔
        ((x.dropWhile isWsChar).reverse.dropWhile isWsChar).reverse <+:
        (x.dropWhile isWsChar).reverse.reverse from by rw [List.reverse_reverse]]
    rw [ List.reverse_prefix]
    exact List.dropWhile_suffix isWsChar
  cases hv : trimChars x with
  | nil => simp
  | cons c cs =>
    rcases hpre with ⟨tail, htail⟩
    rw [hv] at htail
    have hd : x.dropWhile isWsChar = c :: (cs ++ tail) := by
      rw [← htail]
      simp
    have hc : isWsChar c = false := by
      have hidem := dropWhile_idem isWsChar x
      rw [hd] at hidem
      exact head_not_ws_of_dropWhile_self c (cs ++ tail) hidem
    rw [List.dropWhile_cons, hc]
    simp

theorem trimChars_idem (x : List Char) : trimChars (trimChars x) = trimChars x :=
  trimChars_eq_self_of_both _ (trim_dropWhile x) (trim_reverse_dropWhile x)

theorem mem_of_mem_takeWhile (c : Char) (p : Char → Bool) (l : List Char)
    (h : c ∈ l.takeWhile p) : c ∈ l :=
  (List.takeWhile_sublist p).mem h

/-- Claim C10, amended part: whenever the stored hash came through the
hash input step and no earlier field value re-introduces the hash label,
the parser recovers a hashes list of length exactly one from the
default-form output — even when the accepted hash text spans several
lines, since the capture stops at the first newline. -/
theorem c10_single_hash (cfg : List Char) (fd : FormData) (t h : List Char)
    (hin : handleHashInput t = some h) (hfd : fd.hashVal = h)
    (e5 : hasMatch hashLabel (dPreHash cfg fd ++ hashLabel) = false) :
    (parseTgSubmissionData (formatSubmissionDataDefault cfg fd)).hashes.length = 1 := by
  unfold handleHashInput at hin
  by_cases h1 : trimChars t = []
  · rw [if_pos h1] at hin
    exact absurd hin (by simp)
  · rw [if_neg h1] at hin
    by_cases h2 : containsSepChar (trimChars t) = true
    · rw [if_pos h2] at hin
      exact absurd hin (by simp)
    · rw [if_neg h2] at hin
      have hht : h = trimChars t := by
        have := Option.some.inj hin
        exact this.symm
      have hne : h ≠ [] := by rw [hht]; exact h1
      have hld : h.dropWhile isWsChar = h := by rw [hht]; exact trim_dropWhile t
      have hsep : ∀ c ∈ h, c ≠ ',' ∧ c ≠ '，' ∧ c ≠ '、' := by
        intro c hc
        rw [hht] at hc
        have hfalse : containsSepChar (trimChars t) = false := by
          cases hcs : containsSepChar (trimChars t) with
          | false => rfl
          | true => exact absurd hcs h2
        unfold containsSepChar at hfalse
        rw [List.any_eq_false] at hfalse
        have := hfalse c hc
        refine ⟨?_, ?_, ?_⟩ <;> (intro heq; rw [heq] at this; simp at this)
      have hhtext : hashText fd = h := by
        unfold hashText
        rw [hfd, if_neg hne]
      have f6 : findLabel hashLabel (formatSubmissionDataDefault cfg fd) =
          some (h.takeWhile notNl) := by
        rw [formatDefault_shape_hash, hhtext]
        exact findLabel_at_line_firstpart _ _ _ _ e5 hne hld
      have hcapne : h.takeWhile notNl ≠ [] := by
        cases hv : h with
        | nil => exact absurd hv hne
        | cons x xs =>
          have hx : isWsChar x = false := by
            apply head_not_ws_of_dropWhile_self x xs
            rw [← hv]
            exact hld
          have hxnl : notNl x = true := by
            by_cases hc : x = '\n'
            · exfalso
              have : isWsChar x = true := by subst hc; rfl
              rw [hx] at this
              exact Bool.false_ne_true this
            · simp [notNl, hc]
          rw [List.takeWhile_cons, hxnl]
          simp
      have hcaphead : ∃ x y, h.takeWhile notNl = x :: y ∧ isWsChar x = false := by
        cases hv : h with
        | nil => exact absurd hv hne
        | cons x xs =>
          have hx : isWsChar x = false := by
            apply head_not_ws_of_dropWhile_self x xs
            rw [← hv]
            exact hld
          have hxnl : notNl x = true := by
            by_cases hc : x = '\n'
            · exfalso
              have : isWsChar x = true := by subst hc; rfl
              rw [hx] at this
              exact Bool.false_ne_true this
            · simp [notNl, hc]
          refine ⟨x, xs.takeWhile notNl, ?_, hx⟩
          rw [List.takeWhile_cons, hxnl]
          simp
      have hwne : trimChars (h.takeWhile notNl) ≠ [] := by
        rcases hcaphead with ⟨x, y, hxy, hx⟩
        rw [hxy]
        exact trimChars_cons_ne_nil x y hx
      have hwsep : ∀ c ∈ trimChars (h.takeWhile notNl),
          c ≠ ',' ∧ c ≠ '，' ∧ c ≠ '、' ∧ c ≠ '\n' := by
        intro c hc
        have hc1 := mem_of_mem_trimChars c _ hc
        have hc2 := mem_of_mem_takeWhile c notNl h hc1
        have hc3 := List.mem_takeWhile_imp hc1
        refine ⟨(hsep c hc2).1, (hsep c hc2).2.1, (hsep c hc2).2.2, ?_⟩
        intro heq
        rw [heq] at hc3
        simp [notNl] at hc3
      unfold parseTgSubmissionData
      simp only [f6, Option.map_some']
      rw [parseHashField_single _ hwne (trimChars_idem _) hwsep]
      rfl

/-- Claim C4, counterexample: two address-only form submissions that
differ only in the entered address lines format to different
submission_data strings, yet parse to identical results — the parser
returns no addresses component, so it cannot return the structured
values chosen during the form. -/
theorem c4_counterexample :
    addrFd1.address ≠ addrFd2.address ∧
    formatSubmissionDataAddressOnly addrFd1 ≠ formatSubmissionDataAddressOnly addrFd2 ∧
    parseTgSubmissionData (formatSubmissionDataAddressOnly addrFd1) =
      parseTgSubmissionData (formatSubmissionDataAddressOnly addrFd2) := by
  refine ⟨by decide, by decide, by decide⟩

/-- Claim C4, witness: the amended round trip evaluated on the concrete
scenario-S1 form data. -/
theorem c4_default_form_roundtrip_witness :
    parseTgSubmissionData (formatSubmissionDataDefault ("main".toList) sampleFd) =
      { applyTime := some sampleFd.applyTime
        project := some sampleFd.project
        environment := some sampleFd.environment
        services := sampleFd.services
        hashes := [sampleFd.hashVal]
        branch := sampleFd.branch
        content := some sampleFd.content } :=
  c4_default_form_roundtrip ("main".toList) sampleFd (by decide) (by decide)
    (by decide) (by decide) (by decide) (by decide) (by decide) (by decide)
    (by decide) (by decide) (by decide) (by decide) (by decide) (by decide)

/-- Claim C10, counterexample: a custom branch input that happens to
contain the hash field label is accepted by the branch step, and the
parser then recovers two hashes from the resulting default-form
submission, not one. -/
theorem c10_counterexample :
    handleBranchInput ("申请发版hash: a,b".toList) = some labelInBranchFd.branch ∧
    handleHashInput ("abc123".toList) = some labelInBranchFd.hashVal ∧
    (parseTgSubmissionData
      (formatSubmissionDataDefault ("main".toList) labelInBranchFd)).hashes =
      ["a".toList, "b".toList] := by
  refine ⟨by decide, by decide, by decide⟩

/-- Claim C10, witness: the amended single-hash property evaluated on
the concrete scenario-S1 form data. -/
theorem c10_single_hash_witness :
    (parseTgSubmissionData
      (formatSubmissionDataDefault ("main".toList) sampleFd)).hashes.length = 1 :=
  c10_single_hash ("main".toList) sampleFd ("abc123".toList) ("abc123".toList)
    (by decide) (by decide) (by decide)

/-! ## Lemmas about the workflow store -/

theorem getWorkflow_map (s : WStore) (f : WorkflowRow → WorkflowRow) (id : String)
    (hf : ∀ r, (f r).workflowId = r.workflowId) :
    getWorkflow (s.map f) id = (getWorkflow s id).map f := by
  induction s with
  | nil => rfl
  | cons r rs ih =>
    unfold getWorkflow at ih ⊢
    rw [List.map_cons, List.find?_cons, List.find?_cons]
    by_cases hid : r.workflowId = id
    · have h1 : (decide ((f r).workflowId = id)) = true := by
        rw [hf r]
        exact decide_eq_true hid
      have h2 : (decide (r.workflowId = id)) = true := decide_eq_true hid
      rw [h1, h2]
      simp
    · have h1 : (decide ((f r).workflowId = id)) = false := by
        rw [hf r]
        exact decide_eq_false hid
      have h2 : (decide (r.workflowId = id)) = false := decide_eq_false hid
      rw [h1, h2]
      exact ih

theorem applyWorkflowUpdate_keeps_id (r : WorkflowRow) (u : WorkflowUpdate) :
    (applyWorkflowUpdate r u).workflowId = r.workflowId := rfl

theorem workflowId_of_getWorkflow (s : WStore) (id : String) (w : WorkflowRow)
    (h : getWorkflow s id = some w) : w.workflowId = id := by
  unfold getWorkflow at h
  have := List.find?_some h
  exact of_decide_eq_true this

theorem updateWorkflow_preserves_other (s : WStore) (idu id : String)
    (u : WorkflowUpdate) (w : WorkflowRow) (hw : getWorkflow s id = some w)
    (hne : idu ≠ id) :
    getWorkflow (updateWorkflow s idu u).1 id = some w := by
  unfold updateWorkflow
  rw [getWorkflow_map]
  · rw [hw]
    have hwid := workflowId_of_getWorkflow s id w hw
    have : ¬ (w.workflowId = idu) := by
      rw [hwid]
      exact fun hcontra => hne hcontra.symm
    simp [this]
  · intro r
    by_cases hr : r.workflowId = idu
    · simp [hr, applyWorkflowUpdate_keeps_id]
    · simp [hr]

theorem applySMOp_preserves_nonpending (s : WStore) (op : SMOp) (id : String)
    (w : WorkflowRow) (hw : getWorkflow s id = some w)
    (hst : w.status ≠ WStatus.pending) :
    getWorkflow (applySMOp s op) id = some w := by
  cases op with
  | approve idu aid auser now c =>
    show getWorkflow (approveWorkflow s idu aid auser now c).1 id = some w
    unfold approveWorkflow
    cases hga : getWorkflow s idu with
    | none => simpa using hw
    | some wu =>
      dsimp only
      by_cases hps : wu.status ≠ WStatus.pending
      · rw [if_pos hps]
        exact hw
      · rw [if_neg hps]
        push_neg at hps
        have hcase : ¬ (idu = id) := by
          intro heq
          subst heq
          rw [hga] at hw
          injection hw with hww
          rw [← hww, hps] at hst
          exact hst rfl
        exact updateWorkflow_preserves_other s idu id _ w hw hcase
  | reject idu aid auser now c =>
    show getWorkflow (rejectWorkflow s idu aid auser now c).1 id = some w
    unfold rejectWorkflow
    cases hga : getWorkflow s idu with
    | none => simpa using hw
    | some wu =>
      dsimp only
      by_cases hps : wu.status ≠ WStatus.pending
      · rw [if_pos hps]
        exact hw
      · rw [if_neg hps]
        push_neg at hps
        have hcase : ¬ (idu = id) := by
          intro heq
          subst heq
          rw [hga] at hw
          injection hw with hww
          rw [← hww, hps] at hst
          exact hst rfl
        exact updateWorkflow_preserves_other s idu id _ w hw hcase

theorem applySMOps_preserves_nonpending (s : WStore) (ops : List SMOp) (id : String)
    (w : WorkflowRow) (hw : getWorkflow s id = some w)
    (hst : w.status ≠ WStatus.pending) :
    getWorkflow (applySMOps s ops) id = some w := by
  induction ops generalizing s with
  | nil => exact hw
  | cons op ops ih =>
    exact ih (applySMOp s op) (applySMOp_preserves_nonpending s op id w hw hst)

/-- Claim C3: approve_workflow and reject_workflow return False and
leave the store untouched on a missing or non-pending workflow; a True
return certifies the row was pending; and once a workflow is out of
pending, no sequence of later approve or reject calls changes its row,
so get_workflow never again returns pending for that id. -/
theorem c3_monotone_status (s : WStore) (id : String) (aid : Int)
    (auser now : String) (c : Option String) (ops : List SMOp) (w : WorkflowRow) :
    (getWorkflow s id = none →
      approveWorkflow s id aid auser now c = (s, false) ∧
      rejectWorkflow s id aid auser now c = (s, false)) ∧
    (getWorkflow s id = some w → w.status ≠ WStatus.pending →
      approveWorkflow s id aid auser now c = (s, false) ∧
      rejectWorkflow s id aid auser now c = (s, false)) ∧
    ((approveWorkflow s id aid auser now c).2 = true →
      ∃ w0, getWorkflow s id = some w0 ∧ w0.status = WStatus.pending) ∧
    (getWorkflow s id = some w → w.status ≠ WStatus.pending →
      getWorkflow (applySMOps s ops) id = some w) := by
  refine ⟨?_, ?_, ?_, ?_⟩
  · intro hnone
    constructor
    · unfold approveWorkflow
      rw [hnone]
    · unfold rejectWorkflow
      rw [hnone]
  · intro hw hst
    constructor
    · unfold approveWorkflow
      rw [hw]
      simp [hst]
    · unfold rejectWorkflow
      rw [hw]
      simp [hst]
  · intro htrue
    unfold approveWorkflow at htrue
    cases hga : getWorkflow s id with
    | none => rw [hga] at htrue; simp at htrue
    | some w0 =>
      rw [hga] at htrue
      dsimp only at htrue
      by_cases hps : w0.status ≠ WStatus.pending
      · rw [if_pos hps] at htrue
        simp at htrue
      · push_neg at hps
        exact ⟨w0, rfl, hps⟩
  · intro hw hst
    exact applySMOps_preserves_nonpending s ops id w hw hst

/-- Claim C3, witness: on the concrete approved store, a later approve
call leaves the approved row in place. -/
theorem c3_monotone_status_witness :
    getWorkflow (applySMOps approvedStore
      [SMOp.approve "WF-20240101-ABCDEF01" 999 "mallory" "2024-01-02 09:00:00" none,
       SMOp.reject "WF-20240101-ABCDEF01" 999 "mallory" "2024-01-02 09:00:01" none])
      "WF-20240101-ABCDEF01" = some approvedRow :=
  (c3_monotone_status approvedStore "WF-20240101-ABCDEF01" 999 "mallory"
    "2024-01-02 09:00:00" none
    [SMOp.approve "WF-20240101-ABCDEF01" 999 "mallory" "2024-01-02 09:00:00" none,
     SMOp.reject "WF-20240101-ABCDEF01" 999 "mallory" "2024-01-02 09:00:01" none]
    approvedRow).2.2.2 (by decide) (by decide)

/-! ## Lemmas about the sso_submissions store -/

theorem updateSsoSubmissionStatus_keeps_pid (s : SsoStore) (sid st : String)
    (resp err : Option String) (r : SsoSubmissionRow)
    (hr : r ∈ updateSsoSubmissionStatus s sid st resp err) :
    ∃ r0 ∈ s, r.processInstanceId = r0.processInstanceId := by
  unfold updateSsoSubmissionStatus at hr
  rcases List.mem_map.mp hr with ⟨r0, hr0, heq⟩
  refine ⟨r0, hr0, ?_⟩
  rw [← heq]
  by_cases hid : r0.submissionId = sid
  · simp [hid]
  · simp [hid]

theorem applySsoOps_pid_none (s : SsoStore) (ops : List SsoOp)
    (hs : ∀ r ∈ s, r.processInstanceId = none)
    (h : createsPassNoPid ops = true) :
    ∀ r ∈ applySsoOps s ops, r.processInstanceId = none := by
  induction ops generalizing s with
  | nil => exact hs
  | cons op ops ih =>
    unfold createsPassNoPid at h
    rw [List.all_cons] at h
    rcases Bool.and_eq_true_iff.mp h with ⟨hop, hops⟩
    apply ih (applySsoOp s op) _ hops
    cases op with
    | create wid od pid =>
      have hpid : pid = none := by
        simpa using hop
      show ∀ r ∈ (createSsoSubmission s wid od pid).1, r.processInstanceId = none
      unfold createSsoSubmission
      by_cases hdup : s.any (fun r => r.submissionId = wid)
      · rw [if_pos hdup]
        exact hs
      · rw [if_neg hdup]
        intro r hr
        rcases List.mem_append.mp hr with hmem | hmem
        · exact hs r hmem
        · rw [List.mem_singleton.mp hmem, hpid]
    | updateStatus sid st resp err =>
      intro r hr
      rcases updateSsoSubmissionStatus_keeps_pid s sid st resp err r hr with ⟨r0, hr0, heq⟩
      rw [heq]
      exact hs r0 hr0

/-- Claim C7, amended: update_sso_submission_status never touches
process_instance_id, so a row's process_instance_id is whatever its
create passed; in the orchestration flow every create passes null, so
process_instance_id stays null in every row — including after the
success update, where submit_status is success while
process_instance_id is still null. -/
theorem c7_pid_never_written (ops : List SsoOp) (h : createsPassNoPid ops = true) :
    (∀ r ∈ applySsoOps [] ops, r.processInstanceId = none) ∧
    (∀ (s : SsoStore) (sid st : String) (resp err : Option String)
      (r : SsoSubmissionRow), r ∈ updateSsoSubmissionStatus s sid st resp err →
      ∃ r0 ∈ s, r.processInstanceId = r0.processInstanceId) := by
  constructor
  · exact applySsoOps_pid_none [] ops (by simp) h
  · intro s sid st resp err r hr
    exact updateSsoSubmissionStatus_keeps_pid s sid st resp err r hr

/-- Claim C7, counterexample: the orchestration's own call sequence —
create the row, then set it to success after the ticket POST — leaves a
row whose submit_status is success while process_instance_id is null,
refuting the claimed equivalence. -/
theorem c7_counterexample :
    applySsoOps [] c7SampleOps = [c7ResultRow] ∧
    c7ResultRow.submitStatus = "success" ∧
    c7ResultRow.processInstanceId = none := by
  refine ⟨by decide, rfl, rfl⟩

/-- Claim C7, witness: the amended property applied to the concrete
orchestration call sequence. -/
theorem c7_pid_never_written_witness :
    c7ResultRow.processInstanceId = none :=
  (c7_pid_never_written c7SampleOps (by decide)).1 c7ResultRow
    (by rw [(by decide : applySsoOps [] c7SampleOps = [c7ResultRow])]; simp)

/-! ## Lemmas about the pending-notification queries -/

theorem mem_insertSorted (le : α → α → Bool) (x a : α) (l : List α) :
    a ∈ insertSorted le x l ↔ a = x ∨ a ∈ l := by
  induction l with
  | nil => simp [insertSorted]
  | cons y ys ih =>
    unfold insertSorted
    by_cases hxy : le x y = true
    · rw [if_pos hxy]
      simp only [List.mem_cons]
    · rw [if_neg hxy]
      simp only [List.mem_cons, ih]
      tauto

theorem mem_sortByLe (le : α → α → Bool) (l : List α) (a : α) :
    a ∈ sortByLe le l ↔ a ∈ l := by
  induction l with
  | nil => simp [sortByLe]
  | cons x xs ih =>
    unfold sortByLe at ih ⊢
    rw [List.foldr_cons, mem_insertSorted, ih]
    simp

theorem length_insertSorted (le : α → α → Bool) (x : α) (l : List α) :
    (insertSorted le x l).length = l.length + 1 := by
  induction l with
  | nil => rfl
  | cons y ys ih =>
    unfold insertSorted
    by_cases hxy : le x y = true
    · rw [if_pos hxy]
      rfl
    · rw [if_neg hxy]
      simp [ih]

theorem length_sortByLe (le : α → α → Bool) (l : List α) :
    (sortByLe le l).length = l.length := by
  induction l with
  | nil => rfl
  | cons x xs ih =>
    unfold sortByLe at ih ⊢
    rw [List.foldr_cons, length_insertSorted, ih]
    rfl

theorem sortedLe_cons_cons (le : α → α → Bool) (x y : α) (ys : List α) :
    sortedLe le (x :: y :: ys) = (le x y = true ∧ sortedLe le (y :: ys)) := rfl

theorem sortedLe_insertSorted (le : α → α → Bool)
    (htot : ∀ a b, le a b = true ∨ le b a = true) (x : α) (l : List α)
    (h : sortedLe le l) : sortedLe le (insertSorted le x l) := by
  induction l with
  | nil => trivial
  | cons y ys ih =>
    unfold insertSorted
    by_cases hxy : le x y = true
    · rw [if_pos hxy]
      exact ⟨hxy, h⟩
    · rw [if_neg hxy]
      have hyx : le y x = true := (htot x y).resolve_left hxy
      cases ys with
      | nil =>
        show sortedLe le (y :: [x])
        exact ⟨hyx, trivial⟩
      | cons z zs =>
        have hyz : le y z = true := h.1
        have hrec := ih h.2
        unfold insertSorted at hrec ⊢
        by_cases hxz : le x z = true
        · rw [if_pos hxz] at hrec ⊢
          exact ⟨hyx, hrec⟩
        · rw [if_neg hxz] at hrec ⊢
          exact ⟨hyz, hrec⟩

theorem sortedLe_sortByLe (le : α → α → Bool)
    (htot : ∀ a b, le a b = true ∨ le b a = true) (l : List α) :
    sortedLe le (sortByLe le l) := by
  induction l with
  | nil => trivial
  | cons x xs ih =>
    unfold sortByLe at ih ⊢
    rw [List.foldr_cons]
    exact sortedLe_insertSorted le htot x _ ih

theorem optIntLe_total (a b : Option Int) : optIntLe a b = true ∨ optIntLe b a = true := by
  cases a with
  | none => exact Or.inl rfl
  | some av =>
    cases b with
    | none => exact Or.inr rfl
    | some bv =>
      unfold optIntLe
      rcases Int.le_total av bv with h | h
      · exact Or.inl (decide_eq_true h)
      · exact Or.inr (decide_eq_true h)

theorem take_of_le_length (l : List α) (n : Nat) (h : l.length ≤ n) : l.take n = l :=
  List.take_of_length_le h

/-- Claim C8, amended: the two pending-notification queries return
exactly the rows whose build_status is in the literal status list of
their SQL — SUCCESS, FAILURE, ABORTED for the SSO table, plus UNSTABLE
for the Jenkins table — with notified = 0, ordered by build_end_time
ascending; TIMEOUT and ERROR rows are never returned. -/
theorem c8_query_characterization (rows : List SsoBuildRow)
    (jrows : List JenkinsBuildRow) (lim jlim : Nat)
    (hs : (rows.filter ssoNotifyFilter).length ≤ lim)
    (hj : (jrows.filter jenkinsNotifyFilter).length ≤ jlim) :
    (∀ r, r ∈ getPendingNotifications rows lim ↔
      r ∈ rows ∧ ssoNotifyFilter r = true) ∧
    sortedLe (fun a b => optIntLe a.buildEndTime b.buildEndTime)
      (getPendingNotifications rows lim) ∧
    (∀ r, r ∈ getPendingJenkinsNotifications jrows jlim ↔
      r ∈ jrows ∧ jenkinsNotifyFilter r = true) ∧
    sortedLe (fun a b => optIntLe a.buildEndTime b.buildEndTime)
      (getPendingJenkinsNotifications jrows jlim) := by
  have hs' : (sortByLe (fun a b => optIntLe a.buildEndTime b.buildEndTime)
      (rows.filter ssoNotifyFilter)).length ≤ lim := by
    rw [length_sortByLe]
    exact hs
  have hj' : (sortByLe (fun a b => optIntLe a.buildEndTime b.buildEndTime)
      (jrows.filter jenkinsNotifyFilter)).length ≤ jlim := by
    rw [length_sortByLe]
    exact hj
  refine ⟨?_, ?_, ?_, ?_⟩
  · intro r
    unfold getPendingNotifications
    rw [take_of_le_length _ _ hs', mem_sortByLe, List.mem_filter]
  · unfold getPendingNotifications
    rw [take_of_le_length _ _ hs']
    exact sortedLe_sortByLe _ (fun a b => optIntLe_total _ _) _
  · intro r
    unfold getPendingJenkinsNotifications
    rw [take_of_le_length _ _ hj', mem_sortByLe, List.mem_filter]
  · unfold getPendingJenkinsNotifications
    rw [take_of_le_length _ _ hj']
    exact sortedLe_sortByLe _ (fun a b => optIntLe_total _ _) _

/-- Claim C8, counterexample: a TIMEOUT row in sso_build_status and an
ERROR row in jenkins_builds, both unnotified, are never returned by the
pending-notification queries, although the claim lists TIMEOUT and
ERROR among the returned terminal states. -/
theorem c8_counterexample :
    ssoRowTimeout.buildStatus = "TIMEOUT" ∧ ssoRowTimeout.notified = 0 ∧
    getPendingNotificationsDefault [ssoRowTimeout] = [] ∧
    jenkinsRowError.buildStatus = "ERROR" ∧ jenkinsRowError.notified = 0 ∧
    getPendingJenkinsNotificationsDefault [jenkinsRowError] = [] := by
  refine ⟨rfl, rfl, by decide, rfl, rfl, by decide⟩

/-- Claim C8, witness: the amended characterization applied to concrete
two-row tables. -/
theorem c8_query_characterization_witness :
    (ssoRowSuccess ∈ getPendingNotifications [ssoRowTimeout, ssoRowSuccess] 100 ↔
      ssoRowSuccess ∈ [ssoRowTimeout, ssoRowSuccess] ∧
        ssoNotifyFilter ssoRowSuccess = true) :=
  (c8_query_characterization [ssoRowTimeout, ssoRowSuccess]
    [jenkinsRowError, jenkinsRowUnstable] 100 100 (by decide) (by decide)).1
    ssoRowSuccess

/-! ## The approval gate -/

theorem splitColon1_approve (t : List Char) :
    splitColon1 ("approve:".toList ++ t) = some ("approve".toList, t) := rfl

theorem toList_append (a b : String) : (a ++ b).toList = a.toList ++ b.toList := by
  simp [String.toList, String.data_append]

/-- Claim C2: a click on approve with a workflow id, by a clicker whose
username differs from the configured approver name (lower-cased,
leading at signs stripped) and whose id differs from the parsed
configured approver id, while a restriction is configured, is answered
with the not-authorised alert; the handler returns before the
transition and the store — in particular a pending status — is
untouched. -/
theorem c2_approve_gated (usernameCfg idCfgStr : String)
    (clickerUsername : Option String) (clickerId : Int)
    (wid now : String) (s : WStore)
    (hname : lowerStr (clickerUsername.getD "") ≠ lowerStr (lstripAt usernameCfg))
    (hid : clickerId ≠ parseApproverId idCfgStr)
    (hres : isRestricted usernameCfg (parseApproverId idCfgStr) = true) :
    handleApprovalCallback usernameCfg idCfgStr clickerUsername clickerId
      ("approve:" ++ wid) now s = (s, CallbackOutcome.notAuthorized) ∧
    getWorkflow (handleApprovalCallback usernameCfg idCfgStr clickerUsername
      clickerId ("approve:" ++ wid) now s).1 wid = getWorkflow s wid := by
  have hperm : hasApprovalPermission usernameCfg (parseApproverId idCfgStr)
      clickerUsername clickerId = false := by
    unfold hasApprovalPermission
    rw [decide_eq_false hname, decide_eq_false hid]
    simp
  have hmain : handleApprovalCallback usernameCfg idCfgStr clickerUsername clickerId
      ("approve:" ++ wid) now s = (s, CallbackOutcome.notAuthorized) := by
    unfold handleApprovalCallback
    rw [toList_append, splitColon1_approve]
    dsimp only
    rw [hperm, hres]
    simp
  exact ⟨hmain, by rw [hmain]⟩

/-- Claim C2, witness: a concrete unauthorised clicker on the concrete
pending store. -/
theorem c2_approve_gated_witness :
    handleApprovalCallback "Admin" "123" (some "mallory") 999
      ("approve:" ++ "WF-20240101-ABCDEF01") "2024-01-02 09:00:00"
      samplePendingStore = (samplePendingStore, CallbackOutcome.notAuthorized) ∧
    getWorkflow (handleApprovalCallback "Admin" "123" (some "mallory") 999
      ("approve:" ++ "WF-20240101-ABCDEF01") "2024-01-02 09:00:00"
      samplePendingStore).1 "WF-20240101-ABCDEF01" =
      getWorkflow samplePendingStore "WF-20240101-ABCDEF01" :=
  c2_approve_gated "Admin" "123" (some "mallory") 999 "WF-20240101-ABCDEF01"
    "2024-01-02 09:00:00" samplePendingStore (by decide) (by decide) (by decide)

/-! ## The notifiers -/

/-- Claim C6, counterexample: with one stored root message the SSO
notifier sends a plain message to the group — it never passes the
stored root message id as reply_to_message_id, so the event is not
sent as a reply to the root approval message. -/
theorem c6_counterexample :
    sampleNotifyWd.groupMessages = [(-1001, 42)] ∧
    ssoSendToWorkflowGroups [] sampleNotifyWd =
      [{ chatId := -1001, replyTo := none }] ∧
    SendAction.mk (-1001) (some 42) ∉ ssoSendToWorkflowGroups [] sampleNotifyWd := by
  refine ⟨rfl, by decide, by decide⟩

/-- Claim C6, amended: with stored root messages, the Jenkins notifier
replies to each group's root message while the SSO notifier sends a
plain message to each of the same groups; the configured-groups
fallback is reached only when no root message is stored. -/
theorem c6_reply_semantics (options : ProjectGroups) (wd : NotifyWorkflowData)
    (hne : wd.groupMessages ≠ []) :
    jenkinsSendToWorkflowGroups options wd =
      wd.groupMessages.map (fun gm => SendAction.mk gm.1 (some gm.2)) ∧
    ssoSendToWorkflowGroups options wd =
      wd.groupMessages.map (fun gm => SendAction.mk gm.1 none) := by
  constructor
  · unfold jenkinsSendToWorkflowGroups
    rw [if_neg hne]
  · unfold ssoSendToWorkflowGroups
    rw [if_neg hne]

/-- Claim C6, witness: the amended reply semantics on the concrete
workflow data with one stored root message. -/
theorem c6_reply_semantics_witness :
    jenkinsSendToWorkflowGroups [] sampleNotifyWd =
      sampleNotifyWd.groupMessages.map (fun gm => SendAction.mk gm.1 (some gm.2)) ∧
    ssoSendToWorkflowGroups [] sampleNotifyWd =
      sampleNotifyWd.groupMessages.map (fun gm => SendAction.mk gm.1 none) :=
  c6_reply_semantics [] sampleNotifyWd (by decide)

/-! ## The Jenkins limiter and trigger fan-out -/

/-- Claim C5: the limiter clamps every configured capacity to at least
one, but the trigger fan-out's event trace contains no slot acquisition
for any service list — JenkinsBuildLimiter.reserve has no caller — so
two concurrently scheduled fan-out tasks for the same project reach a
state with two trigger calls in flight while the clamped capacity for
max_concurrent one is one. -/
theorem c5_limiter_never_acquired :
    (∀ m : Int, 1 ≤ limiterCapacity m) ∧
    (∀ (project : String) (services : List String),
      (triggerFanoutTrace project services).filter isAcquire = []) ∧
    limiterCapacity 1 = 1 ∧
    (∃ t, Interleave (triggerFanoutTrace "EBPAY" ["svc-a"])
        (triggerFanoutTrace "EBPAY" ["svc-b"]) t ∧
      inFlight "EBPAY" (t.take 2) = 2) := by
  refine ⟨?_, ?_, rfl, ?_⟩
  · intro m
    exact le_max_left 1 m
  · intro project services
    induction services with
    | nil => rfl
    | cons s ss ih =>
      unfold triggerFanoutTrace at ih ⊢
      rw [List.flatMap_cons, List.filter_append, ih]
      rfl
  · refine ⟨[TriggerEvent.triggerBegin "EBPAY" "svc-a",
      TriggerEvent.triggerBegin "EBPAY" "svc-b",
      TriggerEvent.triggerEnd "EBPAY" "svc-a",
      TriggerEvent.waitForStart "svc-a", TriggerEvent.createRecord "svc-a",
      TriggerEvent.spawnMonitor "svc-a",
      TriggerEvent.triggerEnd "EBPAY" "svc-b",
      TriggerEvent.waitForStart "svc-b", TriggerEvent.createRecord "svc-b",
      TriggerEvent.spawnMonitor "svc-b"], ?_, by decide⟩
    apply Interleave.left
    apply Interleave.right
    apply Interleave.left
    apply Interleave.left
    apply Interleave.left
    apply Interleave.left
    apply Interleave.right
    apply Interleave.right
    apply Interleave.right
    apply Interleave.right
    exact Interleave.nil

/-! ## The SSO submit orchestration -/

/-- Every run of the submit orchestration on an empty table ends in a
skip or in the fail path with the table still empty and no POST. -/
theorem submitToSso_empty_aux (enabled valid : Bool) (env : SsoEnv) (wid : String)
    (sd : List Char) : ∃ r, submitToSso enabled valid env wid sd [] = ([], r, false) := by
  unfold submitToSso
  cases enabled with
  | false => exact ⟨SsoSubmitResult.skippedDisabled, rfl⟩
  | true =>
    cases valid with
    | false => exact ⟨SsoSubmitResult.skippedInvalidConfig, rfl⟩
    | true =>
      by_cases hsd : sd = []
      · rw [if_pos hsd]
        exact ⟨SsoSubmitResult.failed, rfl⟩
      · rw [if_neg hsd]
        dsimp only
        rcases hp : (parseTgSubmissionData sd).project with _ | p
        · refine ⟨SsoSubmitResult.failed, ?_⟩
          rfl
        · rcases henv : (parseTgSubmissionData sd).environment with _ | e
          · refine ⟨SsoSubmitResult.failed, ?_⟩
            rfl
          · dsimp only
            by_cases hsvc : (parseTgSubmissionData sd).services = []
            · rw [if_pos hsvc]
              exact ⟨SsoSubmitResult.failed, rfl⟩
            · rw [if_neg hsvc]
              have hcb : (!ssoClientCallBinds) = true := rfl
              rw [if_pos hcb]
              exact ⟨SsoSubmitResult.failed, rfl⟩

/-- Claim C1: starting from an empty sso_submissions table, one run of
the submit orchestration leaves the table empty and never performs the
submit POST, whatever the gates, the workflow, the submission string
and the downstream responses — the client construction passes the
project_name keyword to a constructor that declares no such parameter,
so a TypeError aborts the run before create_sso_submission, and the
except branch merely updates the non-existent row. -/
theorem c1_no_row_no_post (enabled valid : Bool) (env : SsoEnv) (wid : String)
    (sd : List Char) :
    (submitToSso enabled valid env wid sd []).1 = [] ∧
    (submitToSso enabled valid env wid sd []).2.2 = false := by
  obtain ⟨r, hr⟩ := submitToSso_empty_aux enabled valid env wid sd
  rw [hr]
  exact ⟨rfl, rfl⟩

/-! ## The Jenkins poll loop -/

/-- Claim C9: on the Jenkins payload of a finished SUCCESS build the
poll loop does exit with the terminal state, and the update does write
build_status and job_url — but build_end_time and build_duration stay
unwritten, because the guard tests the status key, which a Jenkins
build document does not carry (its field is result), so the row keeps
a null end time and duration. -/
theorem c9_terminal_update_misses_times :
    monitorPollStep (some sampleSuccessInfo) = PollDecision.exitTerminal "SUCCESS" ∧
    (updateBuildStatusFields (some sampleSuccessInfo) "SUCCESS" 1700000000).buildStatus
      = "SUCCESS" ∧
    (updateBuildStatusFields (some sampleSuccessInfo) "SUCCESS" 1700000000).jobUrl
      = sampleSuccessInfo.url ∧
    (updateBuildStatusFields (some sampleSuccessInfo) "SUCCESS" 1700000000).buildEndTime
      = none ∧
    (updateBuildStatusFields (some sampleSuccessInfo) "SUCCESS" 1700000000).buildDuration
      = none ∧
    (applyJenkinsUpdate sampleFreshJenkinsRow
      (updateBuildStatusFields (some sampleSuccessInfo) "SUCCESS" 1700000000)).buildEndTime
      = none ∧
    (applyJenkinsUpdate sampleFreshJenkinsRow
      (updateBuildStatusFields (some sampleSuccessInfo) "SUCCESS" 1700000000)).buildDuration
      = none := by
  refine ⟨rfl, rfl, by decide, rfl, rfl, by decide, by decide⟩

end TGBot
